import Mathlib

/-!
# levels3: an S3-backed storage for goleveldb

A shallow embedding of `core/kv/s3/s3_storage.go` (package `levels3`) and a
verification of the properties its specification states about it.

Conventions of the embedding.

* A Go `string` and a Go `[]byte` are both byte sequences: `Bytes`.
* Go `int` and `int64` are `Int`; the 64-bit range is the predicate `inInt64`
  (the platform is taken to be a 64-bit one, where `int` has 64 bits).
* Pointers to `memFile` objects are addresses into the list `files` of the
  state; pointers to `S3StorageLock` objects are numbered by a counter. A new
  object gets the next unused address, so that it differs from every object
  allocated earlier, as in Go.
* An operation is a function from the state before to the state after and the
  value returned. A run-time panic is the result `Res.panic`. `Unlock` reaches
  its storage through the pointer in the lock, so it is a function on the
  storages by address.
* The object-store client `S3Client` and the decoder `fsParseName` belong to
  the package but not to `s3_storage.go`; they are modelled from the
  specification and marked so.
* The `log.Println` calls and the mutex `mu` are left out: every operation is
  one atomic step.
-/

namespace levels3

/-! ## Byte strings -/

/-- A Go string or byte slice. -/
abbrev Bytes := List UInt8

/-- The bytes of an ASCII string literal. -/
def ascii (s : String) : Bytes := s.toList.map fun c => UInt8.ofNat c.toNat

/-! ## The package `fmt`: the verbs used by the storage -/

/-- The ASCII digit of `d`, for `d < 10`. -/
def digitByte (d : Nat) : UInt8 := UInt8.ofNat (48 + d)

/-- Decimal digits of `n`, most significant first, before `acc`; `fuel` bounds
the number of digits. -/
def natDigitsAux : Nat → Nat → Bytes → Bytes
  | 0, _, acc => acc
  | fuel + 1, n, acc =>
    if n < 10 then digitByte n :: acc
    else natDigitsAux fuel (n / 10) (digitByte (n % 10) :: acc)

/-- Decimal digits of `n`, without leading zeros (`0` is `"0"`). -/
def fmtNat (n : Nat) : Bytes := natDigitsAux (n + 1) n []

/-- The verb `%d`: a decimal integer, with `-` before a negative one. -/
def fmtInt (i : Int) : Bytes :=
  if i < 0 then 45 :: fmtNat i.natAbs else fmtNat i.natAbs

/-- The verb `%06d`: a decimal integer padded with zeros to the width 6, the
sign counting for one column. -/
def fmtInt06 (i : Int) : Bytes :=
  let ds := fmtNat i.natAbs
  if i < 0 then 45 :: (List.replicate (5 - ds.length) 48 ++ ds)
  else List.replicate (6 - ds.length) 48 ++ ds

/-- The hexadecimal digit of `d`, for `d < 16`, in lower case. -/
def hexByte (d : Nat) : UInt8 := if d < 10 then UInt8.ofNat (48 + d) else UInt8.ofNat (87 + d)

/-- Hexadecimal digits of `n`, most significant first, before `acc`. -/
def hexDigitsAux : Nat → Nat → Bytes → Bytes
  | 0, _, acc => acc
  | fuel + 1, n, acc =>
    if n < 16 then hexByte n :: acc
    else hexDigitsAux fuel (n / 16) (hexByte (n % 16) :: acc)

/-- The verb `%#x` on an integer: hexadecimal with the prefix `0x`, the sign
before the prefix. -/
def fmtHex (i : Int) : Bytes :=
  let ds := 48 :: 120 :: hexDigitsAux (i.natAbs + 1) i.natAbs []
  if i < 0 then 45 :: ds else ds

/-- The range of a Go `int64`. -/
def inInt64 (i : Int) : Prop := -9223372036854775808 ≤ i ∧ i ≤ 9223372036854775807

instance (i : Int) : Decidable (inInt64 i) := by unfold inInt64; infer_instance

/-- Width in bytes of the white-space rune that starts `s`, or `0` when `s`
does not start with one. The runes are those of `fmt`s `isSpace`: U+0009 to
U+000D, U+0020, U+0085, U+00A0, U+1680, U+2000 to U+200A, U+2028, U+2029,
U+202F, U+205F, U+3000, in their UTF-8 encoding. -/
def spaceWidth : Bytes → Nat
  | 0xC2 :: 0x85 :: _ => 2
  | 0xC2 :: 0xA0 :: _ => 2
  | 0xE1 :: 0x9A :: 0x80 :: _ => 3
  | 0xE2 :: 0x80 :: b :: _ =>
    if (0x80 ≤ b.toNat ∧ b.toNat ≤ 0x8A) ∨ b = 0xA8 ∨ b = 0xA9 ∨ b = 0xAF then 3 else 0
  | 0xE2 :: 0x81 :: 0x9F :: _ => 3
  | 0xE3 :: 0x80 :: 0x80 :: _ => 3
  | b :: _ => if (9 ≤ b.toNat ∧ b.toNat ≤ 13) ∨ b = 32 then 1 else 0
  | [] => 0

/-- Skips white space other than a newline; `fuel` bounds the number of runes
skipped. -/
def skipBlanks : Nat → Bytes → Bytes
  | 0, s => s
  | fuel + 1, s =>
    match s with
    | 10 :: _ => s
    | _ => if spaceWidth s = 0 then s else skipBlanks fuel (s.drop (spaceWidth s))

/-- The method `SkipSpace` of the scanner under `Sscanf`: skips white space
other than a newline; a newline in the input is the error
"unexpected newline" (`none`). -/
def SkipSpace (s : Bytes) : Option Bytes :=
  match skipBlanks s.length s with
  | 10 :: _ => none
  | r => some r

/-- A byte that `scanNumber` accepts in a decimal number: a digit or `_`. -/
def isNumByte (b : UInt8) : Bool := (48 ≤ b.toNat && b.toNat ≤ 57) || b = 95

/-- The value of a string of decimal digits. -/
def parseNat (tok : Bytes) : Nat := tok.foldl (fun acc b => 10 * acc + (b.toNat - 48)) 0

/-- The method `scanInt` for the verb `%d` and 64 bits: white space, an
optional sign, then the longest run of digits and underscores, which
`strconv.ParseInt` reads in base 10 (an underscore is a syntax error there, a
value outside `int64` a range error). Gives the value and the rest of the
input, or `none` on an error. -/
def scanInt (inp : Bytes) : Option (Int × Bytes) :=
  match SkipSpace inp with
  | none => none
  | some [] => none
  | some (c :: t) =>
    let neg := c = 45
    let s := if c = 43 ∨ c = 45 then t else c :: t
    let tok := s.takeWhile isNumByte
    if tok = [] then none
    else if tok.any (fun b => b = 95) then none
    else
      let i : Int := if neg then -(parseNat tok : Int) else (parseNat tok : Int)
      if inInt64 i then some (i, s.dropWhile isNumByte) else none

/-- A verb `%d` in the format of `Sscanf`: `doScanf` skips white space and
hands over to `scanInt`. -/
def scanVerbD (inp : Bytes) : Option (Int × Bytes) :=
  match SkipSpace inp with
  | none => none
  | some s => scanInt s

/-- The token of a verb `%s`: the longest run of bytes before the next
white-space rune; `fuel` bounds its length. -/
def scanToken : Nat → Bytes → Bytes × Bytes
  | 0, s => ([], s)
  | fuel + 1, s =>
    match s with
    | [] => ([], [])
    | b :: t =>
      if spaceWidth (b :: t) = 0 then ((scanToken fuel t).1.cons b, (scanToken fuel t).2)
      else ([], b :: t)

/-- A verb `%s` in the format of `Sscanf`: white space is skipped, the input
must not be at its end, and the token runs to the next white space. -/
def scanVerbS (inp : Bytes) : Option (Bytes × Bytes) :=
  match SkipSpace inp with
  | none => none
  | some s =>
    match SkipSpace s with
    | none => none
    | some [] => none
    | some (b :: t) => some (scanToken (b :: t).length (b :: t))

/-- A space in the format of `Sscanf` that stands alone: the input must go on
with a white-space rune other than a newline, or be at its end; the white
space up to the next newline is skipped. -/
def advanceSpace (s : Bytes) : Option Bytes :=
  match s with
  | [] => some []
  | 10 :: _ => none
  | _ => if spaceWidth s = 0 then none else some (skipBlanks s.length s)

/-- Literal bytes in the format of `Sscanf`: the input must start with them. -/
def advanceLit : Bytes → Bytes → Option Bytes
  | [], s => some s
  | _ :: _, [] => none
  | c :: lit, b :: s => if c = b then advanceLit lit s else none

/-! ## The package `storage` of goleveldb: file descriptors -/

/-- The constant `storage.TypeManifest`. -/
def TypeManifest : Int := 1

/-- The constant `storage.TypeJournal`. -/
def TypeJournal : Int := 2

/-- The constant `storage.TypeTable`. -/
def TypeTable : Int := 4

/-- The constant `storage.TypeTemp`. -/
def TypeTemp : Int := 8

/-- The type `storage.FileDesc`: a file type (the field `Type`, a `FileType`,
which is an `int`) and a file number (`int64`). -/
structure FileDesc where
  Typ : Int
  Num : Int
  deriving DecidableEq, Repr

/-- Both fields of the descriptor are in the range of their Go types. -/
def FileDesc.inRange (fd : FileDesc) : Prop := inInt64 fd.Typ ∧ inInt64 fd.Num

instance (fd : FileDesc) : Decidable fd.inRange := by unfold FileDesc.inRange; infer_instance

/-- The function `storage.FileDescOk`: the type is one of the four file types
and the number is not negative. -/
def FileDescOk (fd : FileDesc) : Bool :=
  (fd.Typ = TypeManifest ∨ fd.Typ = TypeJournal ∨ fd.Typ = TypeTable ∨ fd.Typ = TypeTemp)
    ∧ 0 ≤ fd.Num

/-- The method `FileDesc.Zero`: the descriptor is the zero value. -/
def FileDesc.Zero (fd : FileDesc) : Bool := fd = ⟨0, 0⟩

/-- The method `FileDesc.String`: the canonical file name, `MANIFEST-%06d`,
`%06d.log`, `%06d.ldb`, `%06d.tmp`, and `%#x-%d` for any other type. -/
def FileDesc.String (fd : FileDesc) : Bytes :=
  if fd.Typ = TypeManifest then ascii "MANIFEST-" ++ fmtInt06 fd.Num
  else if fd.Typ = TypeJournal then fmtInt06 fd.Num ++ ascii ".log"
  else if fd.Typ = TypeTable then fmtInt06 fd.Num ++ ascii ".ldb"
  else if fd.Typ = TypeTemp then fmtInt06 fd.Num ++ ascii ".tmp"
  else fmtHex fd.Typ ++ ascii "-" ++ fmtInt fd.Num

/-! ## The descriptor codec of the package -/

/-- Modelled from the spec: the function `fsParseName` of the package is not
in `s3_storage.go`. It is the decoder of the descriptor codec, the inverse of
`FileDesc.String` that the spec asks for ("must round-trip", "parseable back
into a descriptor without loss"): this is the second attempt of the decoder,
`Sscanf(name, "MANIFEST-%d%s", &fd.Num, &tail)`, which names a manifest when
exactly the number was read. `num` is `fd.Num` as the first attempt left it. -/
def fsParseManifest (name : Bytes) (num : Int) : FileDesc × Bool :=
  match advanceLit (ascii "MANIFEST-") name with
  | none => (⟨0, num⟩, false)
  | some r =>
    match scanVerbD r with
    | none => (⟨0, num⟩, false)
    | some (n, r2) =>
      match scanVerbS r2 with
      | none => (⟨TypeManifest, n⟩, true)
      | some _ => (⟨0, n⟩, false)

/-- Modelled from the spec: the function `fsParseName` of the package is not
in `s3_storage.go`. It is the decoder of the descriptor codec, the inverse of
`FileDesc.String` that the spec asks for: first
`Sscanf(name, "%d.%s", &fd.Num, &tail)`, with the tail `log`, `ldb` or `sst`,
`tmp` giving the type, then the manifest form. The result is the descriptor
and whether the name was recognised; the descriptor of a name that is not
recognised keeps the number that was read and the type `0`. -/
def fsParseName (name : Bytes) : FileDesc × Bool :=
  match scanVerbD name with
  | none => fsParseManifest name 0
  | some (num, r) =>
    match advanceLit (ascii ".") r with
    | none => fsParseManifest name num
    | some r1 =>
      match scanVerbS r1 with
      | none => fsParseManifest name num
      | some (tail, _) =>
        if tail = ascii "log" then (⟨TypeJournal, num⟩, true)
        else if tail = ascii "ldb" ∨ tail = ascii "sst" then (⟨TypeTable, num⟩, true)
        else if tail = ascii "tmp" then (⟨TypeTemp, num⟩, true)
        else (⟨0, num⟩, false)

/-- The call `fmt.Sscanf(string(metaStr), "%d %d", &fType, &fNum)` of `GetMeta`:
the values of `fType` and `fNum` after it. A variable that was not reached
keeps its zero value; the error of `Sscanf` is dropped by `GetMeta`. -/
def scanMeta (metaStr : Bytes) : Int × Int :=
  match scanVerbD metaStr with
  | none => (0, 0)
  | some (fType, r) =>
    match advanceSpace r with
    | none => (fType, 0)
    | some r1 =>
      match scanVerbD r1 with
      | none => (fType, 0)
      | some (fNum, _) => (fType, fNum)

/-! ## Errors and results -/

/-- The error values that the storage returns. `remote c` is an error of an
object-store request other than an absent object, with a code `c` that tells
one such error from another. -/
inductive Err where
  | ErrInvalidFile
  | ErrLocked
  | ErrClosed
  | ErrNotExist
  | NotFoundError
  | remote (code : Nat)
  deriving DecidableEq, Repr

/-- The outcome of an operation: a value, an error value, or a run-time panic. -/
inductive Res (α : Type) where
  | ok (v : α)
  | err (e : Err)
  | panic
  deriving DecidableEq, Repr

/-! ## Maps with string keys -/

/-- The value of the key `k` in a Go map, `none` when the key is absent. -/
def mapGet {α : Type} : List (Bytes × α) → Bytes → Option α
  | [], _ => none
  | (k1, v) :: m, k => if k1 = k then some v else mapGet m k

/-- The Go `delete(m, k)`. -/
def mapDelete {α : Type} (m : List (Bytes × α)) (k : Bytes) : List (Bytes × α) :=
  m.filter fun e => e.1 ≠ k

/-- The Go `m[k] = v`. -/
def mapSet {α : Type} (m : List (Bytes × α)) (k : Bytes) (v : α) : List (Bytes × α) :=
  (k, v) :: mapDelete m k

/-! ## The object-store client -/

/-- Modelled from the spec: the type `S3Client` of the package is not in
`s3_storage.go`. The spec gives its contract, four requests on a store of
whole objects: `putBytes(key, data) -> ok | Error`,
`getBytes(key) -> bytes | NotFoundError`, `list() -> set of FileDescriptor`
and `removeKey(key) -> ok | NotFoundError`. The state is the stored objects
and a script of the failures to come: each request takes the head of
`faults`, and fails with that error when it is `some c`. -/
structure S3Client where
  objects : List (Bytes × Bytes)
  faults : List (Option Nat)
  deriving DecidableEq, Repr

/-- Modelled from the spec: `putBytes(key, data) -> ok | Error` of the absent
`S3Client`: a whole-object write, or an error that leaves the store as it is. -/
def S3Client.PutBytes (key data : Bytes) (c : S3Client) : S3Client × Option Err :=
  match c.faults with
  | some code :: rest => ({ c with faults := rest }, some (Err.remote code))
  | rest => ({ objects := mapSet c.objects key data, faults := rest.tail }, none)

/-- Modelled from the spec: `getBytes(key) -> bytes | NotFoundError` of the
absent `S3Client`. -/
def S3Client.GetBytes (key : Bytes) (c : S3Client) : S3Client × Except Err Bytes :=
  match c.faults with
  | some code :: rest => ({ c with faults := rest }, .error (Err.remote code))
  | rest =>
    match mapGet c.objects key with
    | none => ({ c with faults := rest.tail }, .error Err.NotFoundError)
    | some data => ({ c with faults := rest.tail }, .ok data)

/-- Modelled from the spec: `list() -> set of FileDescriptor` of the absent
`S3Client`, "derived by the collaborator parsing remote key names": the
descriptors of the keys that the decoder recognises. -/
def S3Client.List (c : S3Client) : S3Client × Except Err (List FileDesc) :=
  match c.faults with
  | some code :: rest => ({ c with faults := rest }, .error (Err.remote code))
  | rest =>
    ({ c with faults := rest.tail },
      .ok ((c.objects.filter fun e => (fsParseName e.1).2).map fun e => (fsParseName e.1).1))

/-- Modelled from the spec: `removeKey(key) -> ok | NotFoundError` of the
absent `S3Client`. -/
def S3Client.Remove (key : Bytes) (c : S3Client) : S3Client × Option Err :=
  match c.faults with
  | some code :: rest => ({ c with faults := rest }, some (Err.remote code))
  | rest =>
    match mapGet c.objects key with
    | none => ({ c with faults := rest.tail }, some Err.NotFoundError)
    | some _ => ({ objects := mapDelete c.objects key, faults := rest.tail }, none)

/-! ## The storage -/

/-- The type `memFile`: a `bytes.Buffer`, of which only the unread bytes
matter here, and the flag `open`. -/
structure memFile where
  Buffer : Bytes
  isOpen : Bool
  deriving DecidableEq, Repr

/-- The type `S3StorageLock`: the field `ms`, the address of the storage that
issued the lock, and the address `addr` of the lock object itself, which is
what the pointer comparison of `Unlock` looks at. -/
structure S3StorageLock where
  ms : Nat
  addr : Nat
  deriving DecidableEq, Repr

/-- The type `S3Storage`, with the objects it points to. `slock` is the address
of the recorded lock object (`none` for `nil`), `objStore` the state of the
store behind the client, `ramFiles` the map from file names to addresses of
`memFile` objects and `files` those objects, the address being the position
in the list. `nlocks` counts the lock objects allocated so far. -/
structure S3Storage where
  slock : Option Nat
  meta : FileDesc
  objStore : S3Client
  ramFiles : List (Bytes × Nat)
  files : List memFile
  nlocks : Nat
  deriving DecidableEq, Repr

/-- The `memFile` object at the address `p`. -/
def S3Storage.file (ms : S3Storage) (p : Nat) : memFile := (ms.files[p]?).getD ⟨[], false⟩

/-- The storage with the `memFile` object at the address `p` replaced. -/
def S3Storage.setFile (ms : S3Storage) (p : Nat) (f : memFile) : S3Storage :=
  { ms with files := ms.files.set p f }

/-- The type `memReader`: a `bytes.Reader` over the bytes it was made with, the
address `m` of its `memFile`, its descriptor and the field `closed`. Its
field `ms` is the storage that made it: the operations of the reader take
the state of that storage. -/
structure memReader where
  Reader : Bytes
  m : Nat
  fd : FileDesc
  closed : Bool
  deriving DecidableEq, Repr

/-- The type `memWriter`: the address of its `memFile`, its descriptor and the
field `closed`. Its field `ms` is the storage that made it: the operations
of the writer take the state of that storage. -/
structure memWriter where
  memFile : Nat
  fd : FileDesc
  closed : Bool
  deriving DecidableEq, Repr

/-- The function `NewS3Storage`, given the client that `GetS3Client` returned:
no lock, the zero descriptor, an empty map. -/
def NewS3Storage (s3Client : S3Client) : S3Storage :=
  { slock := none, meta := ⟨0, 0⟩, objStore := s3Client, ramFiles := [], files := [], nlocks := 0 }

/-- The method `S3Storage.Lock`; `self` is the address of the storage. -/
def S3Storage.Lock (self : Nat) (ms : S3Storage) : S3Storage × Res S3StorageLock :=
  if ms.slock ≠ none then (ms, .err .ErrLocked)
  else ({ ms with slock := some ms.nlocks, nlocks := ms.nlocks + 1 }, .ok ⟨self, ms.nlocks⟩)

/-- The method `S3StorageLock.Unlock`, on the storages `heap` by address: it
acts on the storage `lock.ms`, and clears its slot when the slot holds this
very lock object. -/
def S3StorageLock.Unlock (lock : S3StorageLock) (heap : Nat → S3Storage) : Nat → S3Storage :=
  let ms := heap lock.ms
  if ms.slock = some lock.addr then Function.update heap lock.ms { ms with slock := none }
  else heap

/-- The string `metaStr` of `SetMeta`:
`fmt.Sprintf("%d %d", fd.Type, int64(fd.Num))`. -/
def metaStr (fd : FileDesc) : Bytes := fmtInt fd.Typ ++ ascii " " ++ fmtInt fd.Num

/-- The method `S3Storage.SetMeta`. Without an entry for the file in
`ramFiles` the map gives a nil `*memFile`, and `Bytes()` on it is a nil
pointer dereference, before any request is made. -/
def S3Storage.SetMeta (fd : FileDesc) (ms : S3Storage) : S3Storage × Res Unit :=
  if ¬ FileDescOk fd then (ms, .err .ErrInvalidFile)
  else
    match mapGet ms.ramFiles fd.String with
    | none => (ms, .panic)
    | some p =>
      match ms.objStore.PutBytes fd.String (ms.file p).Buffer with
      | (c, some e) => ({ ms with objStore := c }, .err e)
      | (c, none) =>
        match c.PutBytes (ascii "CURRENT") (metaStr fd) with
        | (c1, some e) => ({ ms with objStore := c1, meta := fd }, .err e)
        | (c1, none) => ({ ms with objStore := c1, meta := fd }, .ok ())

/-- The method `S3Storage.GetMeta`. -/
def S3Storage.GetMeta (ms : S3Storage) : S3Storage × Res FileDesc :=
  if ms.meta.Zero then
    match ms.objStore.GetBytes (ascii "CURRENT") with
    | (c, .error _) => ({ ms with objStore := c }, .err .ErrNotExist)
    | (c, .ok metaStr) =>
      let fd : FileDesc := ⟨(scanMeta metaStr).1, (scanMeta metaStr).2⟩
      if fd.Zero then ({ ms with objStore := c, meta := fd }, .err .ErrNotExist)
      else ({ ms with objStore := c, meta := fd }, .ok fd)
  else (ms, .ok ms.meta)

/-- The method `S3Storage.List`. The second loop ranges over the map
`ramFiles` in the order of the list that stands for it; Go fixes no order. -/
def S3Storage.List (ft : Int) (ms : S3Storage) : S3Storage × Res (List FileDesc) :=
  match ms.objStore.List with
  | (c, .error e) => ({ ms with objStore := c }, .err e)
  | (c, .ok fdsAll) =>
    let fds := fdsAll.filter fun fd => Int.land fd.Typ ft ≠ 0
    let existMap := fds.map FileDesc.String
    ({ ms with objStore := c },
      .ok (fds ++ (ms.ramFiles.filter fun e => e.1 ∉ existMap).map fun e => (fsParseName e.1).1))

/-- The method `S3Storage.Open`. -/
def S3Storage.Open (fd : FileDesc) (ms : S3Storage) : S3Storage × Res memReader :=
  if ¬ FileDescOk fd then (ms, .err .ErrInvalidFile)
  else
    match mapGet ms.ramFiles fd.String with
    | some mfile =>
      (ms.setFile mfile { ms.file mfile with isOpen := true },
        .ok { Reader := (ms.file mfile).Buffer, m := mfile, fd := fd, closed := false })
    | none =>
      match ms.objStore.GetBytes fd.String with
      | (c, .error _) => ({ ms with objStore := c }, .err .ErrNotExist)
      | (c, .ok data) =>
        ({ ms with objStore := c, files := ms.files ++ [⟨data, true⟩],
                   ramFiles := mapSet ms.ramFiles fd.String ms.files.length },
          .ok { Reader := data, m := ms.files.length, fd := fd, closed := false })

/-- The method `S3Storage.Create`. -/
def S3Storage.Create (fd : FileDesc) (ms : S3Storage) : S3Storage × Res memWriter :=
  if ¬ FileDescOk fd then (ms, .err .ErrInvalidFile)
  else
    ({ ms with files := ms.files ++ [⟨[], true⟩],
               ramFiles := mapSet ms.ramFiles fd.String ms.files.length },
      .ok { memFile := ms.files.length, fd := fd, closed := false })

/-- The method `S3Storage.Remove`. -/
def S3Storage.Remove (fd : FileDesc) (ms : S3Storage) : S3Storage × Res Unit :=
  if ¬ FileDescOk fd then (ms, .err .ErrInvalidFile)
  else
    match ms.objStore.Remove fd.String with
    | (c, some _) => ({ ms with ramFiles := mapDelete ms.ramFiles fd.String, objStore := c },
        .err .ErrNotExist)
    | (c, none) => ({ ms with ramFiles := mapDelete ms.ramFiles fd.String, objStore := c },
        .ok ())

/-- The method `S3Storage.Rename`. -/
def S3Storage.Rename (oldfd newfd : FileDesc) (ms : S3Storage) : S3Storage × Res Unit :=
  if ¬ FileDescOk oldfd ∨ ¬ FileDescOk newfd then (ms, .err .ErrInvalidFile)
  else if oldfd = newfd then (ms, .ok ())
  else (ms, .ok ())

/-- The method `S3Storage.Close`. -/
def S3Storage.Close (ms : S3Storage) : S3Storage × Res Unit := (ms, .ok ())

/-- The method `memReader.Close`, on the state of the storage of the reader. -/
def memReader.Close (mr : memReader) (ms : S3Storage) : S3Storage × Res Unit :=
  if mr.closed then (ms, .err .ErrClosed)
  else
    ({ ms.setFile mr.m { ms.file mr.m with isOpen := false } with
        ramFiles := mapDelete ms.ramFiles mr.fd.String }, .ok ())

/-- The method `Write` of a `memWriter`, which is that of the `bytes.Buffer`
of its `memFile`: the bytes are put at the end of the buffer, their number is
returned. -/
def memWriter.Write (mw : memWriter) (p : Bytes) (ms : S3Storage) : S3Storage × Res Nat :=
  (ms.setFile mw.memFile { ms.file mw.memFile with Buffer := (ms.file mw.memFile).Buffer ++ p },
    .ok p.length)

/-- The method `memWriter.Sync`, on the state of the storage of the writer. -/
def memWriter.Sync (mw : memWriter) (ms : S3Storage) : S3Storage × Res Unit :=
  if mw.fd.Typ = TypeManifest then
    match ms.objStore.PutBytes mw.fd.String (ms.file mw.memFile).Buffer with
    | (c, some e) => ({ ms with objStore := c }, .err e)
    | (c, none) => ({ ms with objStore := c }, .ok ())
  else (ms, .ok ())

/-- The method `memWriter.Close`, on the state of the storage of the writer. -/
def memWriter.Close (mw : memWriter) (ms : S3Storage) : S3Storage × Res Unit :=
  match ms.objStore.PutBytes mw.fd.String (ms.file mw.memFile).Buffer with
  | (c, some e) => ({ ms with objStore := c }, .err e)
  | (c, none) =>
    if mw.closed then ({ ms with objStore := c }, .err .ErrClosed)
    else
      ({ ms with objStore := c }.setFile mw.memFile { ms.file mw.memFile with isOpen := false },
        .ok ())

/-- The bytes that reading a `memReader` to its end gives. -/
def memReader.readAll (mr : memReader) : Bytes := mr.Reader

/-! ## Predicates of the statements and states of the examples -/

/-- The error code with which the store fails the next request, `none` when
it accepts the request. -/
def S3Client.nextFault (c : S3Client) : Option Nat :=
  match c.faults with
  | some code :: _ => some code
  | _ => none

/-- A new storage over the store `c` on which `Create({Manifest,1})` was called:
the state used in the examples. -/
def newWithManifest1 (c : S3Client) : S3Storage := ((NewS3Storage c).Create ⟨TypeManifest, 1⟩).1

/-- The storages of the examples on locks: at the address 0 a new storage on
which `Lock` was called once, a new storage at every other address. -/
def lockedAtZero (a : Nat) : S3Storage :=
  if a = 0 then ((NewS3Storage ⟨[], []⟩).Lock 0).1 else NewS3Storage ⟨[], []⟩

/-- One of the four file types of `storage`. -/
def validType (t : Int) : Prop :=
  t = TypeManifest ∨ t = TypeJournal ∨ t = TypeTable ∨ t = TypeTemp

/-- A string of decimal digits. -/
def allDigits (l : Bytes) : Prop := ∀ b ∈ l, 48 ≤ b.toNat ∧ b.toNat ≤ 57

/-! ## Runs of a storage and its handles -/

/-- A storage, taken to be at the address 0, with the readers and the writers
that it gave out and that were not closed since. -/
structure Sys where
  ms : S3Storage
  readers : List memReader
  writers : List memWriter
  deriving DecidableEq, Repr

/-- A call on the storage or on one of its handles. A handle is named by its
position in the list of the readers or of the writers not closed so far. -/
inductive Op where
  | Lock
  | Unlock (lock : S3StorageLock)
  | SetMeta (fd : FileDesc)
  | GetMeta
  | List (ft : Int)
  | Open (fd : FileDesc)
  | Create (fd : FileDesc)
  | Remove (fd : FileDesc)
  | Rename (oldfd newfd : FileDesc)
  | Close
  | ReaderClose (i : Nat)
  | WriterWrite (i : Nat) (p : Bytes)
  | WriterSync (i : Nat)
  | WriterClose (i : Nat)
  deriving DecidableEq, Repr

/-- The descriptors of the call are values of their Go type. -/
def Op.inRange : Op → Prop
  | .SetMeta fd => fd.inRange
  | .Open fd => fd.inRange
  | .Create fd => fd.inRange
  | .Remove fd => fd.inRange
  | .Rename oldfd newfd => oldfd.inRange ∧ newfd.inRange
  | _ => True

/-- A new storage over the store `c`, without handles. -/
def Sys.new (c : S3Client) : Sys := { ms := NewS3Storage c, readers := [], writers := [] }

/-- One call: the storage after it, with the handle that `Open` or `Create`
returned added to the handles, and the handle whose `Close` returned no error
taken off them. A call on a handle that is not there does nothing. -/
def Sys.step (s : Sys) : Op → Sys
  | .Lock => { s with ms := (s.ms.Lock 0).1 }
  | .Unlock lock => { s with ms := lock.Unlock (fun _ => s.ms) 0 }
  | .SetMeta fd => { s with ms := (s.ms.SetMeta fd).1 }
  | .GetMeta => { s with ms := s.ms.GetMeta.1 }
  | .List ft => { s with ms := (s.ms.List ft).1 }
  | .Open fd =>
    match s.ms.Open fd with
    | (ms1, .ok mr) => { s with ms := ms1, readers := mr :: s.readers }
    | (ms1, _) => { s with ms := ms1 }
  | .Create fd =>
    match s.ms.Create fd with
    | (ms1, .ok mw) => { s with ms := ms1, writers := mw :: s.writers }
    | (ms1, _) => { s with ms := ms1 }
  | .Remove fd => { s with ms := (s.ms.Remove fd).1 }
  | .Rename oldfd newfd => { s with ms := (s.ms.Rename oldfd newfd).1 }
  | .Close => { s with ms := s.ms.Close.1 }
  | .ReaderClose i =>
    match s.readers[i]? with
    | none => s
    | some mr =>
      match mr.Close s.ms with
      | (ms1, .ok _) => { s with ms := ms1, readers := s.readers.eraseIdx i }
      | (ms1, _) => { s with ms := ms1 }
  | .WriterWrite i p =>
    match s.writers[i]? with
    | none => s
    | some mw => { s with ms := (mw.Write p s.ms).1 }
  | .WriterSync i =>
    match s.writers[i]? with
    | none => s
    | some mw => { s with ms := (mw.Sync s.ms).1 }
  | .WriterClose i =>
    match s.writers[i]? with
    | none => s
    | some mw =>
      match mw.Close s.ms with
      | (ms1, .ok _) => { s with ms := ms1, writers := s.writers.eraseIdx i }
      | (ms1, _) => { s with ms := ms1 }

/-- A sequence of calls, from the state `s`. -/
def Sys.run (s : Sys) (ops : List Op) : Sys := ops.foldl Sys.step s

/-- Every buffer whose flag `open` is set is the buffer of a reader or of a
writer that was not closed. -/
def Sys.openHasHandle (s : Sys) : Prop :=
  ∀ p, (s.ms.file p).isOpen = true →
    (∃ mr ∈ s.readers, mr.m = p) ∨ (∃ mw ∈ s.writers, mw.memFile = p)

/-- The keys of the map `ramFiles` are distinct names of well-formed
descriptors. -/
def wellKeyed (m : List (Bytes × Nat)) : Prop :=
  (m.map Prod.fst).Nodup ∧
    ∀ e ∈ m, ∃ fd : FileDesc, FileDescOk fd = true ∧ fd.inRange ∧ e.1 = fd.String

/-! ## Scanning what was printed -/

theorem spaceWidth_of_head (b : UInt8) (s : Bytes) (h : 33 ≤ b.toNat ∧ b.toNat ≤ 127) :
    spaceWidth (b :: s) = 0 := by
  unfold spaceWidth
  split <;> simp_all
  all_goals first
    | (exfalso; revert h; decide)
    | (refine ⟨by omega, ?_⟩; rintro rfl; revert h; decide)

theorem skipBlanks_of_head (fuel : Nat) (b : UInt8) (s : Bytes)
    (h : 33 ≤ b.toNat ∧ b.toNat ≤ 127) : skipBlanks fuel (b :: s) = b :: s := by
  cases fuel with
  | zero => rfl
  | succ n =>
    unfold skipBlanks
    split
    · rfl
    · simp [spaceWidth_of_head b s h]

theorem SkipSpace_of_head (b : UInt8) (s : Bytes) (h : 33 ≤ b.toNat ∧ b.toNat ≤ 127) :
    SkipSpace (b :: s) = some (b :: s) := by
  unfold SkipSpace
  rw [skipBlanks_of_head _ b s h]
  split
  · rename_i heq
    simp only [List.cons.injEq] at heq
    obtain ⟨rfl, _⟩ := heq
    exact absurd h (by decide)
  · rfl

theorem SkipSpace_nil : SkipSpace [] = some [] := rfl

theorem digitByte_toNat (d : Nat) (h : d < 10) : (digitByte d).toNat = 48 + d := by
  interval_cases d <;> rfl

theorem natDigitsAux_acc (fuel n : Nat) (acc : Bytes) :
    natDigitsAux fuel n acc = natDigitsAux fuel n [] ++ acc := by
  induction fuel generalizing n acc with
  | zero => simp [natDigitsAux]
  | succ k ih =>
    unfold natDigitsAux
    split
    · simp
    · rw [ih (n / 10) (digitByte (n % 10) :: acc), ih (n / 10) [digitByte (n % 10)]]
      simp

theorem natDigitsAux_succ (fuel n : Nat) :
    natDigitsAux (fuel + 1) n [] =
      if n < 10 then [digitByte n] else natDigitsAux fuel (n / 10) [] ++ [digitByte (n % 10)] := by
  conv_lhs => unfold natDigitsAux
  split
  · rfl
  · rw [natDigitsAux_acc]

theorem parseNat_append (l : Bytes) (b : UInt8) :
    parseNat (l ++ [b]) = 10 * parseNat l + (b.toNat - 48) := by
  simp [parseNat, List.foldl_append]

theorem natDigitsAux_spec (fuel n : Nat) (h : n < fuel) :
    allDigits (natDigitsAux fuel n []) ∧ natDigitsAux fuel n [] ≠ [] ∧
      parseNat (natDigitsAux fuel n []) = n := by
  induction fuel generalizing n with
  | zero => omega
  | succ k ih =>
    rw [natDigitsAux_succ]
    split
    · rename_i h10
      refine ⟨?_, by simp, ?_⟩
      · intro b hb
        simp only [List.mem_singleton] at hb
        subst hb
        rw [digitByte_toNat n h10]; omega
      · simp [parseNat, digitByte_toNat n h10]
    · rename_i h10
      have hk : n / 10 < k := by omega
      obtain ⟨h1, h2, h3⟩ := ih (n / 10) hk
      refine ⟨?_, by simp, ?_⟩
      · intro b hb
        rcases List.mem_append.mp hb with hb | hb
        · exact h1 b hb
        · simp only [List.mem_singleton] at hb
          subst hb
          rw [digitByte_toNat _ (Nat.mod_lt _ (by decide))]; omega
      · rw [parseNat_append, h3, digitByte_toNat _ (Nat.mod_lt _ (by decide))]
        omega

theorem fmtNat_spec (n : Nat) :
    allDigits (fmtNat n) ∧ fmtNat n ≠ [] ∧ parseNat (fmtNat n) = n :=
  natDigitsAux_spec (n + 1) n (Nat.lt_succ_self n)

theorem allDigits_isNumByte (l : Bytes) (h : allDigits l) : ∀ b ∈ l, isNumByte b = true := by
  intro b hb
  have := h b hb
  simp [isNumByte, this.1, this.2]

theorem allDigits_no_underscore (l : Bytes) (h : allDigits l) :
    (l.any fun b => decide (b = 95)) = false := by
  rw [List.any_eq_false]
  intro b hb
  have := h b hb
  simp only [decide_eq_true_eq]
  rintro rfl
  exact absurd this (by decide)

theorem takeWhile_token (tok rest : Bytes) (htok : ∀ b ∈ tok, isNumByte b = true)
    (hrest : ∀ b s, rest = b :: s → isNumByte b = false) :
    (tok ++ rest).takeWhile isNumByte = tok ∧ (tok ++ rest).dropWhile isNumByte = rest := by
  induction tok with
  | nil =>
    cases rest with
    | nil => simp
    | cons b s => simp [hrest b s rfl]
  | cons c t ih =>
    have hc := htok c (List.mem_cons_self _ _)
    have ht := ih (fun b hb => htok b (List.mem_cons_of_mem _ hb))
    simp [List.takeWhile, List.dropWhile, hc, ht.1, ht.2]

theorem allDigits_pad (k : Nat) (l : Bytes) (h : allDigits l) :
    allDigits (List.replicate k 48 ++ l) := by
  intro b hb
  rcases List.mem_append.mp hb with hb | hb
  · rw [List.eq_of_mem_replicate hb]; decide
  · exact h b hb

theorem parseNat_pad (k : Nat) (l : Bytes) : parseNat (List.replicate k 48 ++ l) = parseNat l := by
  induction k with
  | zero => simp
  | succ n ih =>
    rw [List.replicate_succ, List.cons_append]
    unfold parseNat at ih ⊢
    rw [List.foldl_cons]
    simpa using ih

theorem scanInt_digits (tok rest : Bytes) (htok : allDigits tok) (hne : tok ≠ [])
    (hrest : ∀ b s, rest = b :: s → isNumByte b = false) (hin : inInt64 (parseNat tok)) :
    scanInt (tok ++ rest) = some ((parseNat tok : Int), rest) := by
  cases tok with
  | nil => exact absurd rfl hne
  | cons c t =>
    have hc := htok c (List.mem_cons_self _ _)
    have hsk : SkipSpace (c :: t ++ rest) = some (c :: (t ++ rest)) :=
      SkipSpace_of_head c (t ++ rest) ⟨by omega, by omega⟩
    have h43 : c ≠ 43 := by rintro rfl; exact absurd hc (by decide)
    have h45 : c ≠ 45 := by rintro rfl; exact absurd hc (by decide)
    have htw := takeWhile_token (c :: t) rest (allDigits_isNumByte _ htok) hrest
    simp only [List.cons_append] at htw
    unfold scanInt
    rw [hsk]
    simp only [h43, h45, or_self, if_false, htw.1, htw.2, allDigits_no_underscore _ htok,
      decide_False, if_true]
    simp [hin]

theorem scanInt_neg_digits (tok rest : Bytes) (htok : allDigits tok) (hne : tok ≠ [])
    (hrest : ∀ b s, rest = b :: s → isNumByte b = false) (hin : inInt64 (-(parseNat tok : Int))) :
    scanInt (45 :: (tok ++ rest)) = some (-(parseNat tok : Int), rest) := by
  have hsk : SkipSpace (45 :: (tok ++ rest)) = some (45 :: (tok ++ rest)) :=
    SkipSpace_of_head 45 (tok ++ rest) (by decide)
  have htw := takeWhile_token tok rest (allDigits_isNumByte _ htok) hrest
  unfold scanInt
  rw [hsk]
  simp only [or_true, if_true, htw.1, htw.2, allDigits_no_underscore _ htok, hne]
  simp [hin]

theorem scanVerbD_of_head (b : UInt8) (s : Bytes) (h : 33 ≤ b.toNat ∧ b.toNat ≤ 127) :
    scanVerbD (b :: s) = scanInt (b :: s) := by
  unfold scanVerbD
  rw [SkipSpace_of_head b s h]

theorem scanVerbD_digits (tok rest : Bytes) (htok : allDigits tok) (hne : tok ≠ [])
    (hrest : ∀ b s, rest = b :: s → isNumByte b = false) (hin : inInt64 (parseNat tok)) :
    scanVerbD (tok ++ rest) = some ((parseNat tok : Int), rest) := by
  cases tok with
  | nil => exact absurd rfl hne
  | cons c t =>
    have hc := htok c (List.mem_cons_self _ _)
    rw [List.cons_append, scanVerbD_of_head c _ ⟨by omega, by omega⟩, ← List.cons_append]
    exact scanInt_digits (c :: t) rest htok hne hrest hin

theorem scanVerbD_neg_digits (tok rest : Bytes) (htok : allDigits tok) (hne : tok ≠ [])
    (hrest : ∀ b s, rest = b :: s → isNumByte b = false) (hin : inInt64 (-(parseNat tok : Int))) :
    scanVerbD (45 :: (tok ++ rest)) = some (-(parseNat tok : Int), rest) := by
  rw [scanVerbD_of_head 45 _ (by decide)]
  exact scanInt_neg_digits tok rest htok hne hrest hin

theorem scanVerbD_fmtInt06 (i : Int) (rest : Bytes) (hin : inInt64 i)
    (hrest : ∀ b s, rest = b :: s → isNumByte b = false) :
    scanVerbD (fmtInt06 i ++ rest) = some (i, rest) := by
  obtain ⟨h1, h2, h3⟩ := fmtNat_spec i.natAbs
  unfold fmtInt06
  by_cases hi : i < 0
  · have hv : -((parseNat (List.replicate (5 - (fmtNat i.natAbs).length) 48 ++ fmtNat i.natAbs)
        : Nat) : Int) = i := by
      rw [parseNat_pad, h3]; omega
    simp only [hi, if_true, List.cons_append]
    rw [scanVerbD_neg_digits _ rest (allDigits_pad _ _ h1) (by simp [h2]) hrest (by rw [hv]; exact hin),
      hv]
  · have hv : ((parseNat (List.replicate (6 - (fmtNat i.natAbs).length) 48 ++ fmtNat i.natAbs)
        : Nat) : Int) = i := by
      rw [parseNat_pad, h3]; omega
    simp only [hi, if_false]
    rw [scanVerbD_digits _ rest (allDigits_pad _ _ h1) (by simp [h2]) hrest (by rw [hv]; exact hin),
      hv]

theorem scanVerbD_fmtInt (i : Int) (rest : Bytes) (hin : inInt64 i)
    (hrest : ∀ b s, rest = b :: s → isNumByte b = false) :
    scanVerbD (fmtInt i ++ rest) = some (i, rest) := by
  obtain ⟨h1, h2, h3⟩ := fmtNat_spec i.natAbs
  unfold fmtInt
  by_cases hi : i < 0
  · have hv : -((parseNat (fmtNat i.natAbs) : Nat) : Int) = i := by rw [h3]; omega
    simp only [hi, if_true, List.cons_append]
    rw [scanVerbD_neg_digits _ rest h1 h2 hrest (by rw [hv]; exact hin), hv]
  · have hv : ((parseNat (fmtNat i.natAbs) : Nat) : Int) = i := by rw [h3]; omega
    simp only [hi, if_false]
    rw [scanVerbD_digits _ rest h1 h2 hrest (by rw [hv]; exact hin), hv]

theorem fmtInt_head (i : Int) :
    ∃ b s, fmtInt i = b :: s ∧ 33 ≤ b.toNat ∧ b.toNat ≤ 127 := by
  obtain ⟨h1, h2, _⟩ := fmtNat_spec i.natAbs
  unfold fmtInt
  by_cases hi : i < 0
  · exact ⟨45, fmtNat i.natAbs, by simp [hi], by decide⟩
  · cases hf : fmtNat i.natAbs with
    | nil => exact absurd hf h2
    | cons c t =>
      have hc := h1 c (by rw [hf]; exact List.mem_cons_self _ _)
      exact ⟨c, t, by simp [hi], by omega, by omega⟩

theorem spaceWidth_blank (s : Bytes) : spaceWidth (32 :: s) = 1 := by
  unfold spaceWidth
  split <;> simp_all

theorem advanceSpace_blank (s : Bytes) (h : ∃ b t, s = b :: t ∧ 33 ≤ b.toNat ∧ b.toNat ≤ 127) :
    advanceSpace (32 :: s) = some s := by
  obtain ⟨b, t, rfl, hb⟩ := h
  unfold advanceSpace
  split
  · rename_i heq; exact absurd heq (by simp)
  · rename_i heq
    simp only [List.cons.injEq] at heq
    exact absurd heq.1 (by decide)
  · rw [spaceWidth_blank]
    simp only [List.length_cons, one_ne_zero, if_false]
    unfold skipBlanks
    split
    · rename_i heq
      simp only [List.cons.injEq] at heq
      exact absurd heq.1 (by decide)
    · rw [spaceWidth_blank]
      simp only [one_ne_zero, if_false, List.drop_succ_cons, List.drop_zero]
      rw [skipBlanks_of_head _ b t hb]

theorem scanMeta_fmt (t n : Int) (ht : inInt64 t) (hn : inInt64 n) :
    scanMeta (fmtInt t ++ ascii " " ++ fmtInt n) = (t, n) := by
  have h1 : fmtInt t ++ ascii " " ++ fmtInt n = fmtInt t ++ (32 :: fmtInt n) := by
    rw [List.append_assoc]; rfl
  have h2 : scanVerbD (fmtInt t ++ (32 :: fmtInt n)) = some (t, 32 :: fmtInt n) :=
    scanVerbD_fmtInt t _ ht (by
      intro b s hbs
      simp only [List.cons.injEq] at hbs
      rw [← hbs.1]; decide)
  have h3 : advanceSpace (32 :: fmtInt n) = some (fmtInt n) := advanceSpace_blank _ (fmtInt_head n)
  have h4 : scanVerbD (fmtInt n) = some (n, []) := by
    have := scanVerbD_fmtInt n [] hn (by intro b s hbs; exact absurd hbs (by simp))
    simpa using this
  unfold scanMeta
  rw [h1, h2]
  simp only [h3, h4]

theorem advanceLit_append (lit x : Bytes) : advanceLit lit (lit ++ x) = some x := by
  induction lit with
  | nil => cases x <;> rfl
  | cons c l ih => simp [advanceLit, ih]

theorem scanInt_of_head (b : UInt8) (s : Bytes) (h : 33 ≤ b.toNat ∧ b.toNat ≤ 127)
    (h43 : b ≠ 43) (h45 : b ≠ 45) (hb : isNumByte b = false) : scanInt (b :: s) = none := by
  unfold scanInt
  rw [SkipSpace_of_head b s h]
  simp [h43, h45, List.takeWhile, hb]

theorem fsParseManifest_fmt (n num : Int) (hin : inInt64 n) :
    fsParseManifest (ascii "MANIFEST-" ++ fmtInt06 n) num = (⟨TypeManifest, n⟩, true) := by
  have h1 : scanVerbD (fmtInt06 n) = some (n, []) := by
    have := scanVerbD_fmtInt06 n [] hin (by intro b s hbs; exact absurd hbs (by simp))
    simpa using this
  have h2 : scanVerbS [] = none := rfl
  unfold fsParseManifest
  rw [advanceLit_append]
  simp only [h1, h2]

theorem fsParseName_manifest (n : Int) (hin : inInt64 n) :
    fsParseName (ascii "MANIFEST-" ++ fmtInt06 n) = (⟨TypeManifest, n⟩, true) := by
  have h0 : ascii "MANIFEST-" ++ fmtInt06 n = 77 :: (ascii "ANIFEST-" ++ fmtInt06 n) := rfl
  have h1 : scanVerbD (ascii "MANIFEST-" ++ fmtInt06 n) = none := by
    rw [h0, scanVerbD_of_head 77 _ (by decide)]
    exact scanInt_of_head 77 _ (by decide) (by decide) (by decide) (by decide)
  unfold fsParseName
  rw [h1]
  exact fsParseManifest_fmt n 0 hin

theorem fsParseName_suffix (n : Int) (hin : inInt64 n) (suffix : Bytes)
    (hs : scanVerbS suffix = some (suffix, [])) :
    fsParseName (fmtInt06 n ++ (46 :: suffix)) =
      if suffix = ascii "log" then (⟨TypeJournal, n⟩, true)
      else if suffix = ascii "ldb" ∨ suffix = ascii "sst" then (⟨TypeTable, n⟩, true)
      else if suffix = ascii "tmp" then (⟨TypeTemp, n⟩, true)
      else (⟨0, n⟩, false) := by
  have h1 : scanVerbD (fmtInt06 n ++ (46 :: suffix)) = some (n, 46 :: suffix) :=
    scanVerbD_fmtInt06 n _ hin (by
      intro b s hbs
      simp only [List.cons.injEq] at hbs
      rw [← hbs.1]; decide)
  have h2 : advanceLit (ascii ".") (46 :: suffix) = some suffix := by
    simp [ascii, advanceLit]
  unfold fsParseName
  rw [h1]
  simp only [h2, hs]

theorem fsParseName_String (fd : FileDesc) (ht : validType fd.Typ) (hin : inInt64 fd.Num) :
    fsParseName fd.String = (fd, true) := by
  obtain ⟨t, n⟩ := fd
  simp only at ht hin
  rcases ht with rfl | rfl | rfl | rfl
  · exact fsParseName_manifest n hin
  · have := fsParseName_suffix n hin (ascii "log") (by decide)
    simpa [FileDesc.String, TypeManifest, TypeJournal, TypeTable, TypeTemp] using this
  · have := fsParseName_suffix n hin (ascii "ldb") (by decide)
    simpa [FileDesc.String, TypeManifest, TypeJournal, TypeTable, TypeTemp] using this
  · have := fsParseName_suffix n hin (ascii "tmp") (by decide)
    simpa [FileDesc.String, TypeManifest, TypeJournal, TypeTable, TypeTemp] using this

theorem scanInt_inRange (s r : Bytes) (i : Int) (h : scanInt s = some (i, r)) : inInt64 i := by
  unfold scanInt at h
  split at h
  · exact absurd h (by simp)
  · exact absurd h (by simp)
  · simp only at h
    split_ifs at h <;>
      (simp only [Option.some.injEq, Prod.mk.injEq] at h; rw [← h.1]; assumption)

theorem scanVerbD_inRange (s r : Bytes) (i : Int) (h : scanVerbD s = some (i, r)) :
    inInt64 i := by
  unfold scanVerbD at h
  split at h
  · exact absurd h (by simp)
  · exact scanInt_inRange _ r i h

theorem fsParseManifest_ok (name : Bytes) (num : Int) (fd : FileDesc)
    (h : fsParseManifest name num = (fd, true)) : validType fd.Typ ∧ inInt64 fd.Num := by
  unfold fsParseManifest at h
  split at h
  · simp at h
  · split at h
    · simp at h
    · rename_i n r2 hn
      split at h
      · simp only [Prod.mk.injEq, and_true] at h
        rw [← h]
        exact ⟨Or.inl rfl, scanVerbD_inRange _ _ _ hn⟩
      · simp at h

theorem fsParseName_ok (name : Bytes) (fd : FileDesc) (h : fsParseName name = (fd, true)) :
    validType fd.Typ ∧ inInt64 fd.Num := by
  unfold fsParseName at h
  split at h
  · exact fsParseManifest_ok _ _ _ h
  · rename_i num r hn
    have hnum := scanVerbD_inRange _ _ _ hn
    split at h
    · exact fsParseManifest_ok _ _ _ h
    · split at h
      · exact fsParseManifest_ok _ _ _ h
      · split_ifs at h
        · simp only [Prod.mk.injEq, and_true] at h
          rw [← h]; exact ⟨Or.inr (Or.inl rfl), hnum⟩
        · simp only [Prod.mk.injEq, and_true] at h
          rw [← h]; exact ⟨Or.inr (Or.inr (Or.inl rfl)), hnum⟩
        · simp only [Prod.mk.injEq, and_true] at h
          rw [← h]; exact ⟨Or.inr (Or.inr (Or.inr rfl)), hnum⟩
        · simp at h

theorem String_inj (fd1 fd2 : FileDesc) (h1 : validType fd1.Typ ∧ inInt64 fd1.Num)
    (h2 : validType fd2.Typ ∧ inInt64 fd2.Num) (h : fd1.String = fd2.String) : fd1 = fd2 := by
  have e1 := fsParseName_String fd1 h1.1 h1.2
  have e2 := fsParseName_String fd2 h2.1 h2.2
  rw [h, e2] at e1
  simp only [Prod.mk.injEq, and_true] at e1
  exact e1.symm

theorem FileDescOk_validType (fd : FileDesc) (h : FileDescOk fd = true) :
    validType fd.Typ ∧ 0 ≤ fd.Num := by
  simpa [FileDescOk, validType] using h

/-! ## Maps -/

theorem mapGet_mapDelete_self {α : Type} (m : List (Bytes × α)) (k : Bytes) :
    mapGet (mapDelete m k) k = none := by
  induction m with
  | nil => rfl
  | cons e m ih =>
    obtain ⟨k1, v⟩ := e
    by_cases h : k1 = k
    · simpa [mapDelete, List.filter, h] using ih
    · simpa [mapDelete, List.filter, h, mapGet] using ih

theorem mapGet_mapDelete_ne {α : Type} (m : List (Bytes × α)) (k k2 : Bytes) (hne : k2 ≠ k) :
    mapGet (mapDelete m k) k2 = mapGet m k2 := by
  induction m with
  | nil => rfl
  | cons e m ih =>
    obtain ⟨k1, v⟩ := e
    by_cases h : k1 = k
    · subst h
      have h2 : ¬ k1 = k2 := fun e => hne e.symm
      simp only [mapDelete, List.filter_cons, mapGet, h2] at ih ⊢
      simpa using ih
    · by_cases h2 : k1 = k2
      · subst h2
        simp [mapDelete, List.filter_cons, mapGet, h]
      · simp only [mapDelete, List.filter_cons, mapGet, h2] at ih ⊢
        simpa [h, mapGet, h2] using ih

theorem mapGet_mapSet_self {α : Type} (m : List (Bytes × α)) (k : Bytes) (v : α) :
    mapGet (mapSet m k v) k = some v := by
  simp [mapSet, mapGet]

theorem mapGet_mapSet_ne {α : Type} (m : List (Bytes × α)) (k k2 : Bytes) (v : α)
    (hne : k2 ≠ k) : mapGet (mapSet m k v) k2 = mapGet m k2 := by
  have h : k ≠ k2 := fun e => hne e.symm
  simp [mapSet, mapGet, h, mapGet_mapDelete_ne m k k2 hne]

theorem mapGet_of_mem {α : Type} (m : List (Bytes × α)) (k : Bytes) (v : α) (h : (k, v) ∈ m) :
    mapGet m k ≠ none := by
  induction m with
  | nil => simp at h
  | cons e m ih =>
    obtain ⟨k1, v1⟩ := e
    by_cases h1 : k1 = k
    · simp [mapGet, h1]
    · simp only [mapGet, h1, if_false]
      apply ih
      rcases List.mem_cons.mp h with h | h
      · exact absurd (Prod.mk.inj h).1.symm h1
      · exact h

theorem mem_of_mapGet {α : Type} (m : List (Bytes × α)) (k : Bytes) (v : α)
    (h : mapGet m k = some v) : (k, v) ∈ m := by
  induction m with
  | nil => simp [mapGet] at h
  | cons e m ih =>
    obtain ⟨k1, v1⟩ := e
    by_cases h1 : k1 = k
    · simp only [mapGet, h1, if_true, Option.some.injEq] at h
      rw [h1, h]; exact List.mem_cons_self _ _
    · simp only [mapGet, h1, if_false] at h
      exact List.mem_cons_of_mem _ (ih h)

/-! ## Files of the storage -/

theorem file_append_new (ms : S3Storage) (f : memFile) :
    ({ ms with files := ms.files ++ [f] } : S3Storage).file ms.files.length = f := by
  simp [S3Storage.file]

theorem file_setFile_self (ms : S3Storage) (p : Nat) (f : memFile) (hp : p < ms.files.length) :
    (ms.setFile p f).file p = f := by
  simp [S3Storage.file, S3Storage.setFile, hp]

/-! ## Create, write, close, open -/

theorem file_setFile (ms : S3Storage) (p q : Nat) (f : memFile) :
    (ms.setFile p f).file q = if p = q ∧ p < ms.files.length then f else ms.file q := by
  by_cases hpq : p = q
  · subst hpq
    by_cases hl : p < ms.files.length
    · simp [S3Storage.file, S3Storage.setFile, hl]
    · have h1 : ms.files.length ≤ p := Nat.le_of_not_lt hl
      simp only [S3Storage.file, S3Storage.setFile, hl, and_false, if_false]
      rw [List.getElem?_eq_none (by simpa using h1), List.getElem?_eq_none h1]
  · simp [S3Storage.file, S3Storage.setFile, List.getElem?_set, hpq]

theorem Create_ok (ms : S3Storage) (d : FileDesc) (hd : FileDescOk d = true) :
    ms.Create d =
      ({ ms with files := ms.files ++ [⟨[], true⟩],
                 ramFiles := mapSet ms.ramFiles d.String ms.files.length },
        .ok { memFile := ms.files.length, fd := d, closed := false }) := by
  simp [S3Storage.Create, hd]

theorem Close_ramFiles (mw : memWriter) (ms : S3Storage) :
    (mw.Close ms).1.ramFiles = ms.ramFiles := by
  unfold memWriter.Close
  split
  · rfl
  · split <;> rfl

theorem Close_buffer (mw : memWriter) (ms : S3Storage) (q : Nat) :
    ((mw.Close ms).1.file q).Buffer = (ms.file q).Buffer := by
  have key : ∀ c : S3Client, (({ ms with objStore := c } : S3Storage).setFile mw.memFile
      { ms.file mw.memFile with isOpen := false }).file q = 
        if mw.memFile = q ∧ mw.memFile < ms.files.length
          then { ms.file mw.memFile with isOpen := false } else ms.file q := by
    intro c
    rw [file_setFile]; rfl
  unfold memWriter.Close
  split
  · rfl
  · split
    · rfl
    · simp only [key]
      split_ifs with h
      · rw [h.1]
      · rfl

theorem Write_file_new (ms : S3Storage) (d : FileDesc) (p : Bytes) (k : Bytes) :
    let mw : memWriter := { memFile := ms.files.length, fd := d, closed := false }
    let s1 : S3Storage := { ms with files := ms.files ++ [⟨[], true⟩],
                                    ramFiles := mapSet ms.ramFiles k ms.files.length }
    ((mw.Write p s1).1.file ms.files.length) = ⟨p, true⟩ ∧
      (mw.Write p s1).1.ramFiles = s1.ramFiles ∧
      (mw.Write p s1).1.objStore = ms.objStore := by
  intro mw s1
  refine ⟨?_, rfl, rfl⟩
  simp only [memWriter.Write, mw]
  rw [file_setFile]
  simp [s1, S3Storage.file]

/-- C1. Round trip: on every state of the storage, for every well-formed
descriptor `d` and every payload `p`, `Create(d)` gives a writer, and after
writing `p` to it and closing it (whatever the object store answers to the
flush), `Open(d)` gives a reader whose whole content is `p`. -/
theorem roundtrip_create_write_close_open (ms : S3Storage) (d : FileDesc) (p : Bytes)
    (hd : FileDescOk d = true) :
    ∃ mw mr, (ms.Create d).2 = .ok mw ∧
      ((mw.Close (mw.Write p (ms.Create d).1).1).1.Open d).2 = .ok mr ∧ mr.readAll = p := by
  rw [Create_ok ms d hd]
  obtain ⟨h1, h2, _⟩ := Write_file_new ms d p d.String
  refine ⟨_, ⟨p, ms.files.length, d, false⟩, rfl, ?_, rfl⟩
  simp only [S3Storage.Open, hd, not_true_eq_false, if_false, Close_ramFiles, h2,
    mapGet_mapSet_self, Close_buffer, h1]

/-- The scenario of C1: `Create({Manifest,1})`, write `"hello"`, `Close()`,
`Open({Manifest,1})`, read: `"hello"`, on a new storage over an empty store. -/
theorem roundtrip_create_write_close_open_witness :
    FileDescOk ⟨TypeManifest, 1⟩ = true ∧ ∃ mw mr, ((NewS3Storage ⟨[], []⟩).Create ⟨TypeManifest, 1⟩).2 = .ok mw ∧
      ((mw.Close (mw.Write (ascii "hello")
        ((NewS3Storage ⟨[], []⟩).Create ⟨TypeManifest, 1⟩).1).1).1.Open ⟨TypeManifest, 1⟩).2
          = .ok mr ∧ mr.readAll = ascii "hello" :=
  ⟨by decide, roundtrip_create_write_close_open (NewS3Storage ⟨[], []⟩) ⟨TypeManifest, 1⟩
    (ascii "hello") (by decide)⟩

/-! ## Requests that the store accepts or fails -/

theorem PutBytes_accepted (c : S3Client) (key data : Bytes) (h : c.nextFault = none) :
    c.PutBytes key data = ({ objects := mapSet c.objects key data, faults := c.faults.tail }, none) := by
  unfold S3Client.PutBytes
  split
  · rename_i code rest hf
    simp [S3Client.nextFault, hf] at h
  · rfl

theorem PutBytes_failed (c : S3Client) (key data : Bytes) (code : Nat)
    (h : c.nextFault = some code) :
    c.PutBytes key data = ({ c with faults := c.faults.tail }, some (Err.remote code)) := by
  unfold S3Client.PutBytes
  split
  · rename_i code1 rest hf
    simp only [S3Client.nextFault, hf, Option.some.injEq] at h
    simp [hf, h]
  · rename_i hf
    unfold S3Client.nextFault at h
    split at h
    · rename_i code1 rest1 hf1
      exact absurd hf1 (hf code1 rest1)
    · simp at h

/-- C2. The writer's `Close` flushes the whole file: for every state, every
well-formed descriptor `d` and every payload `p` written through the writer
that `Create(d)` returned, when the object store accepts the write, `Close()`
returns no error, the object under the name of `d` is exactly `p`, whatever
was stored there before, every other object is as before, and the buffer of
the writer is marked not open. -/
theorem writer_close_flushes (ms : S3Storage) (d : FileDesc) (p : Bytes)
    (hd : FileDescOk d = true) (hacc : ms.objStore.nextFault = none) :
    ∃ mw, (ms.Create d).2 = .ok mw ∧
      (mw.Close (mw.Write p (ms.Create d).1).1).2 = .ok () ∧
      mapGet (mw.Close (mw.Write p (ms.Create d).1).1).1.objStore.objects d.String = some p ∧
      (∀ k, k ≠ d.String →
        mapGet (mw.Close (mw.Write p (ms.Create d).1).1).1.objStore.objects k
          = mapGet ms.objStore.objects k) ∧
      ((mw.Close (mw.Write p (ms.Create d).1).1).1.file mw.memFile).isOpen = false := by
  rw [Create_ok ms d hd]
  obtain ⟨h1, _, h3⟩ := Write_file_new ms d p d.String
  refine ⟨_, rfl, ?_⟩
  simp only [memWriter.Close, h1, h3, PutBytes_accepted _ _ _ hacc]
  refine ⟨by simp, mapGet_mapSet_self _ _ _, fun k hk => mapGet_mapSet_ne _ _ _ _ hk, ?_⟩
  simp only [Bool.false_eq_true, if_false]
  rw [file_setFile]
  simp [memWriter.Write, S3Storage.setFile]

/-- C2 at `d = {Manifest,1}`, `p = "hello"`, on a new storage whose store holds
other bytes under that name. -/
theorem writer_close_flushes_witness :
    FileDescOk ⟨TypeManifest, 1⟩ = true ∧
    (NewS3Storage ⟨[(ascii "MANIFEST-000001", ascii "old")], []⟩).objStore.nextFault = none ∧
    ∃ mw, ((NewS3Storage ⟨[(ascii "MANIFEST-000001", ascii "old")], []⟩).Create
        ⟨TypeManifest, 1⟩).2 = .ok mw ∧
      mapGet (mw.Close (mw.Write (ascii "hello")
        ((NewS3Storage ⟨[(ascii "MANIFEST-000001", ascii "old")], []⟩).Create
          ⟨TypeManifest, 1⟩).1).1).1.objStore.objects (ascii "MANIFEST-000001")
        = some (ascii "hello") := by
  refine ⟨by decide, by decide, ?_⟩
  obtain ⟨mw, h1, _, h3, _⟩ := writer_close_flushes
    (NewS3Storage ⟨[(ascii "MANIFEST-000001", ascii "old")], []⟩) ⟨TypeManifest, 1⟩
    (ascii "hello") (by decide) (by decide)
  exact ⟨mw, h1, h3⟩

/-! ## SetMeta and GetMeta -/

theorem PutBytes_none (c c1 : S3Client) (key data : Bytes) (h : c.PutBytes key data = (c1, none)) :
    c1.objects = mapSet c.objects key data := by
  unfold S3Client.PutBytes at h
  split at h
  · simp at h
  · simp only [Prod.mk.injEq, and_true] at h
    rw [← h]

theorem SetMeta_eq (ms : S3Storage) (d : FileDesc) (p : Nat) (hd : FileDescOk d = true)
    (hg : mapGet ms.ramFiles d.String = some p) :
    ms.SetMeta d =
      match ms.objStore.PutBytes d.String (ms.file p).Buffer with
      | (c, some e) => ({ ms with objStore := c }, .err e)
      | (c, none) =>
        match c.PutBytes (ascii "CURRENT") (metaStr d) with
        | (c1, some e) => ({ ms with objStore := c1, meta := d }, .err e)
        | (c1, none) => ({ ms with objStore := c1, meta := d }, .ok ()) := by
  simp only [S3Storage.SetMeta, hd, not_true_eq_false, if_false, hg]

theorem SetMeta_ok (ms : S3Storage) (d : FileDesc) (hok : (ms.SetMeta d).2 = .ok ()) :
    (ms.SetMeta d).1.meta = d ∧
      mapGet (ms.SetMeta d).1.objStore.objects (ascii "CURRENT") = some (metaStr d) := by
  by_cases h1 : FileDescOk d = true
  · cases hg : mapGet ms.ramFiles d.String with
    | none => simp [S3Storage.SetMeta, h1, hg] at hok
    | some p =>
      rw [SetMeta_eq ms d p h1 hg] at hok ⊢
      rcases hp : ms.objStore.PutBytes d.String (ms.file p).Buffer with ⟨c, _ | e⟩
      · rw [hp] at hok
        simp only at hok ⊢
        rcases hq : c.PutBytes (ascii "CURRENT") (metaStr d) with ⟨c1, _ | e⟩
        · exact ⟨rfl, by simp only [PutBytes_none _ _ _ _ hq, mapGet_mapSet_self]⟩
        · rw [hq] at hok
          simp at hok
      · rw [hp] at hok
        simp at hok
  · simp [S3Storage.SetMeta, h1] at hok

theorem FileDescOk_not_Zero (d : FileDesc) (hd : FileDescOk d = true) : d.Zero = false := by
  obtain ⟨t, n⟩ := d
  have h := (FileDescOk_validType _ hd).1
  simp only [FileDesc.Zero, decide_eq_false_iff_not, FileDesc.mk.injEq, not_and]
  intro h0
  subst h0
  simp [validType, TypeManifest, TypeJournal, TypeTable, TypeTemp] at h

theorem GetMeta_cached (ms : S3Storage) (h : ms.meta.Zero = false) :
    ms.GetMeta = (ms, .ok ms.meta) := by
  simp [S3Storage.GetMeta, h]

/-- C3. Metadata round trip on the same storage: on every state, for every
well-formed descriptor `d`, after `SetMeta(d)` returned no error, `GetMeta()`
on the same storage returns `d`, whatever the state `c` of the object store is
at that moment. -/
theorem getmeta_after_setmeta (ms : S3Storage) (d : FileDesc) (c : S3Client)
    (hd : FileDescOk d = true) (hok : (ms.SetMeta d).2 = .ok ()) :
    ({ (ms.SetMeta d).1 with objStore := c } : S3Storage).GetMeta.2 = .ok d := by
  have hm := (SetMeta_ok ms d hok).1
  rw [GetMeta_cached _ (by simpa [hm] using FileDescOk_not_Zero d hd)]
  simp [hm]

/-- C3 at `d = {Manifest,1}`, after `Create(d)` on a new storage, with a store
that has lost everything when `GetMeta` is called. -/
theorem getmeta_after_setmeta_witness :
    FileDescOk ⟨TypeManifest, 1⟩ = true ∧
    ((newWithManifest1 ⟨[], []⟩).SetMeta ⟨TypeManifest, 1⟩).2 = .ok () ∧
    ({ ((newWithManifest1 ⟨[], []⟩).SetMeta ⟨TypeManifest, 1⟩).1 with
        objStore := ⟨[], []⟩ } : S3Storage).GetMeta.2 = .ok ⟨TypeManifest, 1⟩ :=
  ⟨by decide, by decide,
    getmeta_after_setmeta (newWithManifest1 ⟨[], []⟩) ⟨TypeManifest, 1⟩ ⟨[], []⟩
      (by decide) (by decide)⟩

theorem GetBytes_accepted (c : S3Client) (key : Bytes) (h : c.nextFault = none) :
    (c.GetBytes key).2 =
      match mapGet c.objects key with
      | none => .error Err.NotFoundError
      | some data => .ok data := by
  unfold S3Client.GetBytes
  split
  · rename_i code rest hf
    simp [S3Client.nextFault, hf] at h
  · split <;> simp_all

/-- C4. Metadata round trip through the remote record: for every well-formed
descriptor `d` (in the range of its Go type), after `SetMeta(d)` returned no
error on one storage, the object under `CURRENT` is the text
`"<type> <number>"` of `d`, and `GetMeta()` on a new storage over the same
objects, whose request the store accepts, returns `d`. -/
theorem getmeta_fresh_after_setmeta (ms : S3Storage) (d : FileDesc) (c : S3Client)
    (hd : FileDescOk d = true) (hr : d.inRange) (hok : (ms.SetMeta d).2 = .ok ())
    (hc : c.objects = (ms.SetMeta d).1.objStore.objects) (hacc : c.nextFault = none) :
    mapGet (ms.SetMeta d).1.objStore.objects (ascii "CURRENT")
        = some (metaStr d) ∧
      (NewS3Storage c).GetMeta.2 = .ok d := by
  have hm := (SetMeta_ok ms d hok).2
  refine ⟨hm, ?_⟩
  have hg := GetBytes_accepted c (ascii "CURRENT") hacc
  rw [hc, hm] at hg
  have hz : (⟨d.Typ, d.Num⟩ : FileDesc).Zero = false := FileDescOk_not_Zero d hd
  unfold S3Storage.GetMeta
  have hnew : (NewS3Storage c).meta.Zero = true := rfl
  rw [if_pos hnew]
  have hobj : (NewS3Storage c).objStore = c := rfl
  rw [hobj]
  generalize c.GetBytes (ascii "CURRENT") = r at hg
  obtain ⟨c2, res⟩ := r
  simp only at hg
  subst hg
  simp only [metaStr, scanMeta_fmt d.Typ d.Num hr.1 hr.2, hz]
  simp

/-- C4 at `d = {Manifest,1}`: the record is `"1 1"`. -/
theorem getmeta_fresh_after_setmeta_witness :
    FileDescOk ⟨TypeManifest, 1⟩ = true ∧ (⟨TypeManifest, 1⟩ : FileDesc).inRange ∧
    ((newWithManifest1 ⟨[], []⟩).SetMeta ⟨TypeManifest, 1⟩).2 = .ok () ∧
    mapGet ((newWithManifest1 ⟨[], []⟩).SetMeta ⟨TypeManifest, 1⟩).1.objStore.objects
      (ascii "CURRENT") = some (ascii "1 1") ∧
    (NewS3Storage ((newWithManifest1 ⟨[], []⟩).SetMeta ⟨TypeManifest, 1⟩).1.objStore).GetMeta.2
      = .ok ⟨TypeManifest, 1⟩ :=
  ⟨by decide, by decide, by decide,
    getmeta_fresh_after_setmeta (newWithManifest1 ⟨[], []⟩) ⟨TypeManifest, 1⟩
      ((newWithManifest1 ⟨[], []⟩).SetMeta ⟨TypeManifest, 1⟩).1.objStore
      (by decide) (by decide) (by decide) rfl (by decide)⟩

/-- C5, as stated, fails. On a new storage with a buffer for `{Manifest,1}`,
over a store that accepts the first request and fails the second with the
code 7, `SetMeta({Manifest,1})` writes the file content, fails to write
`CURRENT`, returns that error, and the cached pointer, which was the zero
descriptor before the call, is `{Manifest,1}` after it. -/
theorem setmeta_pointer_failure_counterexample :
    FileDescOk ⟨TypeManifest, 1⟩ = true ∧
    ((newWithManifest1 ⟨[], [none, some 7]⟩).SetMeta ⟨TypeManifest, 1⟩).2 = .err (.remote 7) ∧
    mapGet ((newWithManifest1 ⟨[], [none, some 7]⟩).SetMeta ⟨TypeManifest, 1⟩).1.objStore.objects
      (ascii "MANIFEST-000001") = some [] ∧
    mapGet ((newWithManifest1 ⟨[], [none, some 7]⟩).SetMeta ⟨TypeManifest, 1⟩).1.objStore.objects
      (ascii "CURRENT") = none ∧
    (newWithManifest1 ⟨[], [none, some 7]⟩).meta = ⟨0, 0⟩ ∧
    ((newWithManifest1 ⟨[], [none, some 7]⟩).SetMeta ⟨TypeManifest, 1⟩).1.meta ≠
      (newWithManifest1 ⟨[], [none, some 7]⟩).meta := by
  decide

/-- C5, amended. On every state, for every well-formed descriptor `d` that has
a buffer, if the store accepts the write of the file content and fails the
write of the `CURRENT` record with the code `code`, then `SetMeta(d)` returns
that error and the cached pointer is `d`: it is assigned once the file
content is written, before the record is written. -/
theorem setmeta_pointer_failure (ms : S3Storage) (d : FileDesc) (p code : Nat)
    (rest : List (Option Nat)) (hd : FileDescOk d = true)
    (hbuf : mapGet ms.ramFiles d.String = some p)
    (hf : ms.objStore.faults = none :: some code :: rest) :
    (ms.SetMeta d).2 = .err (.remote code) ∧ (ms.SetMeta d).1.meta = d := by
  rw [SetMeta_eq ms d p hd hbuf]
  have h1 : ms.objStore.PutBytes d.String (ms.file p).Buffer
      = ({ objects := mapSet ms.objStore.objects d.String (ms.file p).Buffer,
           faults := some code :: rest }, none) := by
    rw [PutBytes_accepted _ _ _ (by simp [S3Client.nextFault, hf]), hf]
    rfl
  rw [h1]
  simp only
  rw [PutBytes_failed _ _ _ code (by simp [S3Client.nextFault])]
  exact ⟨rfl, rfl⟩

/-- C5, amended, at the input of the counterexample. -/
theorem setmeta_pointer_failure_witness :
    FileDescOk ⟨TypeManifest, 1⟩ = true ∧
    mapGet (newWithManifest1 ⟨[], [none, some 7]⟩).ramFiles (FileDesc.String ⟨TypeManifest, 1⟩)
      = some 0 ∧
    (newWithManifest1 ⟨[], [none, some 7]⟩).objStore.faults = none :: some 7 :: [] ∧
    ((newWithManifest1 ⟨[], [none, some 7]⟩).SetMeta ⟨TypeManifest, 1⟩).2 = .err (.remote 7) ∧
    ((newWithManifest1 ⟨[], [none, some 7]⟩).SetMeta ⟨TypeManifest, 1⟩).1.meta
      = ⟨TypeManifest, 1⟩ :=
  ⟨by decide, by decide, by decide,
    setmeta_pointer_failure (newWithManifest1 ⟨[], [none, some 7]⟩) ⟨TypeManifest, 1⟩ 0 7 []
      (by decide) (by decide) (by decide)⟩

/-- C6: the code faults where the claim asks for a result. On a new storage,
whose map has no buffer for `{Manifest,1}`, over a store that accepts every
request, `SetMeta({Manifest,1})` does not complete: it panics on the nil
`*memFile` that the map gives, and no request reaches the store. -/
theorem setmeta_new_storage_panics :
    FileDescOk ⟨TypeManifest, 1⟩ = true ∧
    (NewS3Storage ⟨[], []⟩).SetMeta ⟨TypeManifest, 1⟩ = (NewS3Storage ⟨[], []⟩, .panic) := by
  decide

/-! ## Lock and Unlock -/

theorem Lock_locked (self : Nat) (ms : S3Storage) (h : ms.slock ≠ none) :
    ms.Lock self = (ms, .err .ErrLocked) := by
  simp [S3Storage.Lock, h]

theorem Lock_free (self : Nat) (ms : S3Storage) (h : ms.slock = none) :
    ms.Lock self =
      ({ ms with slock := some ms.nlocks, nlocks := ms.nlocks + 1 }, .ok ⟨self, ms.nlocks⟩) := by
  simp [S3Storage.Lock, h]

theorem Unlock_current (lock : S3StorageLock) (heap : Nat → S3Storage)
    (h : (heap lock.ms).slock = some lock.addr) :
    lock.Unlock heap lock.ms = { heap lock.ms with slock := none } := by
  simp [S3StorageLock.Unlock, h]

/-- C7. Lock exclusivity: on every state of the storages, when the storage of
the token `lock` records that token (issued by an earlier `Lock`, so below the
allocation counter), `Lock()` on that storage returns `ErrLocked` and leaves
the state as it is; after `Unlock()` of the token, `Lock()` succeeds, records
the token it returns, which is a new one, and a further `Lock()` returns
`ErrLocked` again. -/
theorem lock_exclusive (heap : Nat → S3Storage) (lock : S3StorageLock)
    (hcur : (heap lock.ms).slock = some lock.addr)
    (hold : lock.addr < (heap lock.ms).nlocks) :
    (heap lock.ms).Lock lock.ms = (heap lock.ms, .err .ErrLocked) ∧
      ∃ tok, ((lock.Unlock heap lock.ms).Lock lock.ms).2 = .ok tok ∧
        ((lock.Unlock heap lock.ms).Lock lock.ms).1.slock = some tok.addr ∧
        tok.ms = lock.ms ∧ tok.addr ≠ lock.addr ∧
        (((lock.Unlock heap lock.ms).Lock lock.ms).1.Lock lock.ms).2 = .err .ErrLocked := by
  refine ⟨Lock_locked _ _ (by simp [hcur]), ?_⟩
  rw [Unlock_current lock heap hcur, Lock_free _ _ rfl]
  refine ⟨⟨lock.ms, (heap lock.ms).nlocks⟩, rfl, rfl, rfl, ?_, ?_⟩
  · simp only [ne_eq]
    omega
  · rw [Lock_locked _ _ (by simp)]

/-- C7 on the token that `Lock` gave on a new storage at the address 0. -/
theorem lock_exclusive_witness :
    (lockedAtZero 0).slock = some 0 ∧ 0 < (lockedAtZero 0).nlocks ∧
    (lockedAtZero 0).Lock 0 = (lockedAtZero 0, .err .ErrLocked) ∧
    ∃ tok, (((⟨0, 0⟩ : S3StorageLock).Unlock lockedAtZero 0).Lock 0).2 = .ok tok ∧
      tok.addr ≠ 0 := by
  obtain ⟨h1, tok, h2, _, _, h5, _⟩ :=
    lock_exclusive lockedAtZero ⟨0, 0⟩ (by decide) (by decide)
  exact ⟨by decide, by decide, h1, tok, h2, h5⟩

/-- C8. Idempotent `Unlock`: on every state of the storages, `Unlock()` of a
token that is not the token recorded by the storage at the address `a` (a
token of another storage, or one that `a` no longer records) leaves the whole
state of `a` as it is; it returns nothing, so no error; and when `a` records a
token, a following `Lock()` on `a` still returns `ErrLocked`. -/
theorem unlock_stale_noop (heap : Nat → S3Storage) (lock : S3StorageLock) (a : Nat)
    (hstale : ¬ (lock.ms = a ∧ (heap a).slock = some lock.addr)) :
    lock.Unlock heap a = heap a ∧
      ((heap a).slock ≠ none →
        (lock.Unlock heap a).Lock a = (heap a, .err .ErrLocked)) := by
  have h1 : lock.Unlock heap a = heap a := by
    unfold S3StorageLock.Unlock
    split_ifs with h
    · have hne : a ≠ lock.ms := fun e => hstale ⟨e.symm, e ▸ h⟩
      exact Function.update_noteq hne _ _
    · rfl
  refine ⟨h1, fun h => ?_⟩
  rw [h1]
  exact Lock_locked _ _ h

/-- C8 on a token that the storage at the address 0 issued earlier and no
longer records (address 5), while it records the token 0. -/
theorem unlock_stale_noop_witness :
    ¬ ((⟨0, 5⟩ : S3StorageLock).ms = 0 ∧ (lockedAtZero 0).slock = some (⟨0, 5⟩ : S3StorageLock).addr) ∧
    (⟨0, 5⟩ : S3StorageLock).Unlock lockedAtZero 0 = lockedAtZero 0 ∧
    ((⟨0, 5⟩ : S3StorageLock).Unlock lockedAtZero 0).Lock 0 = (lockedAtZero 0, .err .ErrLocked) := by
  obtain ⟨h1, h2⟩ := unlock_stale_noop lockedAtZero ⟨0, 5⟩ 0 (by decide)
  exact ⟨by decide, h1, h2 (by decide)⟩

/-! ## List -/

/-- C9: the code misses the mask on the buffered files. After
`Create({Journal,1})` on a new storage over an empty store, `List` with the
mask `TypeManifest` returns the journal descriptor, whose type does not match
the mask: the first loop of `List` tests `fd.Type&ft != 0`, the second loop,
over `ramFiles`, does not. -/
theorem list_returns_unmasked_buffer :
    FileDescOk ⟨TypeJournal, 1⟩ = true ∧
    (((NewS3Storage ⟨[], []⟩).Create ⟨TypeJournal, 1⟩).1.List TypeManifest).2
      = .ok [⟨TypeJournal, 1⟩] ∧
    Int.land (⟨TypeJournal, 1⟩ : FileDesc).Typ TypeManifest = 0 := by
  decide

theorem S3Client_List_valid (c c1 : S3Client) (fdsAll : List FileDesc)
    (h : c.List = (c1, .ok fdsAll)) : ∀ fd ∈ fdsAll, validType fd.Typ ∧ inInt64 fd.Num := by
  unfold S3Client.List at h
  split at h
  · simp at h
  · simp only [Prod.mk.injEq, Except.ok.injEq] at h
    intro fd hfd
    rw [← h.2] at hfd
    obtain ⟨e, he, rfl⟩ := List.mem_map.mp hfd
    have hok := (List.mem_filter.mp he).2
    exact fsParseName_ok e.1 _ (Prod.ext rfl hok)

theorem List_mem_of_buffer (s : S3Storage) (d : FileDesc) (ft : Int) (fds : List FileDesc)
    (hd : FileDescOk d = true) (hr : d.inRange)
    (hkey : mapGet s.ramFiles d.String ≠ none) (hl : (s.List ft).2 = .ok fds) : d ∈ fds := by
  have hv : validType d.Typ ∧ inInt64 d.Num := ⟨(FileDescOk_validType d hd).1, hr.2⟩
  unfold S3Storage.List at hl
  rcases hc : s.objStore.List with ⟨c, e | fdsAll⟩
  · rw [hc] at hl
    simp at hl
  · rw [hc] at hl
    simp only [Res.ok.injEq] at hl
    rw [← hl]
    by_cases hex : d.String ∈ (fdsAll.filter fun fd => Int.land fd.Typ ft ≠ 0).map FileDesc.String
    · obtain ⟨fd1, hfd1, hs⟩ := List.mem_map.mp hex
      have hval := S3Client_List_valid _ _ _ hc fd1 (List.mem_filter.mp hfd1).1
      have heq : fd1 = d := String_inj fd1 d hval hv hs
      rw [heq] at hfd1
      exact List.mem_append_left _ hfd1
    · cases hg : mapGet s.ramFiles d.String with
      | none => exact absurd hg hkey
      | some v =>
        apply List.mem_append_right
        apply List.mem_map.mpr
        refine ⟨(d.String, v), List.mem_filter.mpr ⟨mem_of_mapGet _ _ _ hg, ?_⟩, ?_⟩
        · simpa using hex
        · simp only [fsParseName_String d hv.1 hv.2]

/-- C10. `List` completeness: on every state, for every well-formed descriptor
`d` (in the range of its Go type), every mask `ft` that the type of `d`
matches and every payload `p`, `Create(d)` gives a writer, a `List(ft)` that
succeeds after it includes `d`, and so does a `List(ft)` that succeeds after
`p` was written and the writer was closed, whatever the store answered to the
flush. -/
theorem list_includes_created (ms : S3Storage) (d : FileDesc) (ft : Int) (p : Bytes)
    (hd : FileDescOk d = true) (hr : d.inRange) (_hm : Int.land d.Typ ft ≠ 0) :
    ∃ mw, (ms.Create d).2 = .ok mw ∧
      (∀ fds, ((ms.Create d).1.List ft).2 = .ok fds → d ∈ fds) ∧
      (∀ fds, ((mw.Close (mw.Write p (ms.Create d).1).1).1.List ft).2 = .ok fds → d ∈ fds) := by
  rw [Create_ok ms d hd]
  obtain ⟨_, h2, _⟩ := Write_file_new ms d p d.String
  refine ⟨_, rfl, fun fds hl => ?_, fun fds hl => ?_⟩
  · exact List_mem_of_buffer _ d ft fds hd hr (by simp [mapGet_mapSet_self]) hl
  · exact List_mem_of_buffer _ d ft fds hd hr
      (by rw [Close_ramFiles, h2]; simp [mapGet_mapSet_self]) hl

/-- C10 at `d = {Manifest,1}` and the mask `TypeManifest`, on a new storage
over an empty store: `List` succeeds and gives `d`, before `Close` from the
buffer and after `Close` from the listing of the store. -/
theorem list_includes_created_witness :
    FileDescOk ⟨TypeManifest, 1⟩ = true ∧ (⟨TypeManifest, 1⟩ : FileDesc).inRange ∧
    Int.land (⟨TypeManifest, 1⟩ : FileDesc).Typ TypeManifest ≠ 0 ∧
    (((NewS3Storage ⟨[], []⟩).Create ⟨TypeManifest, 1⟩).1.List TypeManifest).2
      = .ok [⟨TypeManifest, 1⟩] ∧
    (((⟨0, ⟨TypeManifest, 1⟩, false⟩ : memWriter).Close
      ((⟨0, ⟨TypeManifest, 1⟩, false⟩ : memWriter).Write (ascii "hello")
        ((NewS3Storage ⟨[], []⟩).Create ⟨TypeManifest, 1⟩).1).1).1.List TypeManifest).2
      = .ok [⟨TypeManifest, 1⟩] ∧
    (⟨TypeManifest, 1⟩ : FileDesc) ∈ [(⟨TypeManifest, 1⟩ : FileDesc)] := by
  obtain ⟨mw, _, h2, _⟩ := list_includes_created (NewS3Storage ⟨[], []⟩) ⟨TypeManifest, 1⟩
    TypeManifest (ascii "hello") (by decide) (by decide) (by decide)
  exact ⟨by decide, by decide, by decide, by decide, by decide, h2 _ (by decide)⟩

/-! ## Readers: Open and Close -/

theorem file_eq_of_files (a b : S3Storage) (p : Nat) (h : a.files = b.files) :
    a.file p = b.file p := by
  simp [S3Storage.file, h]

theorem file_of_append (a b : S3Storage) (f : memFile) (p : Nat)
    (h : a.files = b.files ++ [f]) :
    a.file p = if p = b.files.length then f else b.file p := by
  unfold S3Storage.file
  rw [h]
  split_ifs with hp
  · subst hp
    simp
  · rcases Nat.lt_or_gt_of_ne hp with hlt | hgt
    · rw [List.getElem?_append_left hlt]
    · rw [List.getElem?_eq_none (by simp; omega), List.getElem?_eq_none (by omega)]

theorem Open_buffers (ms s1 : S3Storage) (fd : FileDesc) (r : Res memReader)
    (h : ms.Open fd = (s1, r)) (p : Nat) (hp : p < ms.files.length) :
    (s1.file p).Buffer = (ms.file p).Buffer := by
  unfold S3Storage.Open at h
  by_cases hd : FileDescOk fd = true
  · simp only [hd, not_true_eq_false, if_false] at h
    cases hg : mapGet ms.ramFiles fd.String with
    | some q =>
      rw [hg] at h
      simp only [Prod.mk.injEq] at h
      rw [← h.1, file_setFile]
      split_ifs with hc
      · rw [hc.1]
      · rfl
    | none =>
      rw [hg] at h
      rcases hb : ms.objStore.GetBytes fd.String with ⟨c, e | data⟩
      · rw [hb] at h
        simp only [Prod.mk.injEq] at h
        rw [← h.1]
        exact congrArg memFile.Buffer (file_eq_of_files _ _ p rfl)
      · rw [hb] at h
        simp only [Prod.mk.injEq] at h
        rw [← h.1, file_of_append _ ms ⟨data, true⟩ p rfl, if_neg (by omega)]
  · simp only [hd, Bool.false_eq_true, not_false_eq_true, if_true, Prod.mk.injEq] at h
    rw [← h.1]

theorem ReaderClose_buffer (mr : memReader) (ms : S3Storage) (p : Nat) :
    ((mr.Close ms).1.file p).Buffer = (ms.file p).Buffer := by
  unfold memReader.Close
  split_ifs
  · rfl
  · have h : ({ ms.setFile mr.m { ms.file mr.m with isOpen := false } with
        ramFiles := mapDelete ms.ramFiles mr.fd.String } : S3Storage).file p
        = (ms.setFile mr.m { ms.file mr.m with isOpen := false }).file p :=
      file_eq_of_files _ _ p rfl
    simp only [h]
    rw [file_setFile]
    split_ifs with hc
    · rw [hc.1]
    · rfl

theorem Open_miss (ms : S3Storage) (d : FileDesc) (hd : FileDescOk d = true)
    (hmiss : mapGet ms.ramFiles d.String = none) :
    ms.Open d =
      match ms.objStore.GetBytes d.String with
      | (c, .error _) => ({ ms with objStore := c }, .err .ErrNotExist)
      | (c, .ok data) =>
        ({ ms with objStore := c, files := ms.files ++ [⟨data, true⟩],
                   ramFiles := mapSet ms.ramFiles d.String ms.files.length },
          .ok { Reader := data, m := ms.files.length, fd := d, closed := false }) := by
  simp only [S3Storage.Open, hd, not_true_eq_false, if_false, hmiss]

theorem Open_ok_reader (ms s1 : S3Storage) (d : FileDesc) (mr : memReader)
    (h : ms.Open d = (s1, .ok mr)) :
    mr.fd = d ∧ mr.closed = false ∧
      ∀ k, k ≠ d.String → mapGet s1.ramFiles k = mapGet ms.ramFiles k := by
  unfold S3Storage.Open at h
  by_cases hd : FileDescOk d = true
  · simp only [hd, not_true_eq_false, if_false] at h
    cases hg : mapGet ms.ramFiles d.String with
    | some p =>
      rw [hg] at h
      simp only [Prod.mk.injEq, Res.ok.injEq] at h
      obtain ⟨h1, h2⟩ := h
      subst h1 h2
      exact ⟨rfl, rfl, fun k _ => rfl⟩
    | none =>
      rw [hg] at h
      rcases hb : ms.objStore.GetBytes d.String with ⟨c, e | data⟩
      · rw [hb] at h
        simp at h
      · rw [hb] at h
        simp only [Prod.mk.injEq, Res.ok.injEq] at h
        obtain ⟨h1, h2⟩ := h
        subst h1 h2
        exact ⟨rfl, rfl, fun k hk => mapGet_mapSet_ne _ _ _ _ hk⟩
  · simp [hd] at h

/-- C11. Evict on read close: on every state, for every well-formed
descriptor `d` for which `Open(d)` gives a reader, the `Close()` of that
reader returns no error and leaves the map `ramFiles` without an entry for
the name of `d`, every other entry being as before the `Open` and every
buffer holding the bytes it held; the next `Open(d)` then makes a `GetBytes` request and its result is that of the
request: `ErrNotExist` when it fails, a reader over the bytes it returned
otherwise. -/
theorem reader_close_evicts (ms s1 : S3Storage) (d : FileDesc) (mr : memReader)
    (hd : FileDescOk d = true) (hopen : ms.Open d = (s1, .ok mr)) :
    (mr.Close s1).2 = .ok () ∧
      mapGet (mr.Close s1).1.ramFiles d.String = none ∧
      (∀ k, k ≠ d.String → mapGet (mr.Close s1).1.ramFiles k = mapGet ms.ramFiles k) ∧
      (∀ p, p < ms.files.length → ((mr.Close s1).1.file p).Buffer = (ms.file p).Buffer) ∧
      ((mr.Close s1).1.Open d).1.objStore
        = ((mr.Close s1).1.objStore.GetBytes d.String).1 ∧
      ((mr.Close s1).1.Open d).2 =
        match ((mr.Close s1).1.objStore.GetBytes d.String).2 with
        | .error _ => .err .ErrNotExist
        | .ok data =>
          .ok { Reader := data, m := (mr.Close s1).1.files.length, fd := d, closed := false } := by
  obtain ⟨hfd, hcl, hother⟩ := Open_ok_reader ms s1 d mr hopen
  have hclose : mr.Close s1 =
      ({ s1.setFile mr.m { s1.file mr.m with isOpen := false } with
          ramFiles := mapDelete s1.ramFiles d.String }, .ok ()) := by
    simp [memReader.Close, hcl, hfd]
  have hmiss : mapGet (mr.Close s1).1.ramFiles d.String = none := by
    rw [hclose]; exact mapGet_mapDelete_self _ _
  refine ⟨by rw [hclose], hmiss, ?_, ?_, ?_, ?_⟩
  · intro k hk
    rw [hclose]
    simp only
    rw [mapGet_mapDelete_ne _ _ _ hk, hother k hk]
  · intro p hp
    rw [ReaderClose_buffer, Open_buffers ms s1 d _ hopen p hp]
  · rw [Open_miss _ d hd hmiss]
    rcases (mr.Close s1).1.objStore.GetBytes d.String with ⟨c, e | data⟩ <;> rfl
  · rw [Open_miss _ d hd hmiss]
    rcases (mr.Close s1).1.objStore.GetBytes d.String with ⟨c, e | data⟩ <;> rfl

/-- C11 at `d = {Manifest,1}`, on a new storage over a store that holds
`"hello"` under the name of `d`: after `Open` and the reader's `Close` the map
is empty, and the next `Open` reads `"hello"` from the store. -/
theorem reader_close_evicts_witness :
    FileDescOk ⟨TypeManifest, 1⟩ = true ∧
    (NewS3Storage ⟨[(ascii "MANIFEST-000001", ascii "hello")], []⟩).Open ⟨TypeManifest, 1⟩
      = ({ NewS3Storage ⟨[(ascii "MANIFEST-000001", ascii "hello")], []⟩ with
            files := [⟨ascii "hello", true⟩], ramFiles := [(ascii "MANIFEST-000001", 0)] },
          .ok ⟨ascii "hello", 0, ⟨TypeManifest, 1⟩, false⟩) ∧
    mapGet ((⟨ascii "hello", 0, ⟨TypeManifest, 1⟩, false⟩ : memReader).Close
      { NewS3Storage ⟨[(ascii "MANIFEST-000001", ascii "hello")], []⟩ with
            files := [⟨ascii "hello", true⟩], ramFiles := [(ascii "MANIFEST-000001", 0)] }).1.ramFiles
      (FileDesc.String ⟨TypeManifest, 1⟩) = none :=
  ⟨by decide, by decide,
    (reader_close_evicts (NewS3Storage ⟨[(ascii "MANIFEST-000001", ascii "hello")], []⟩) _
      ⟨TypeManifest, 1⟩ _ (by decide) (by decide)).2.1⟩

/-- C12: the code accepts a second `Close`. On a new storage over a store that
holds `"hello"` under the name of `{Manifest,1}` and accepts every request,
the reader that `Open` gives is closed twice and the writer that `Create`
gives is closed twice: every one of the four calls returns no error. Both
`Close` methods test the field `closed` and return `ErrClosed` when it is
set, and nothing ever sets it. -/
theorem second_close_accepted :
    (NewS3Storage ⟨[(ascii "MANIFEST-000001", ascii "hello")], []⟩).Open ⟨TypeManifest, 1⟩
      = ({ NewS3Storage ⟨[(ascii "MANIFEST-000001", ascii "hello")], []⟩ with
            files := [⟨ascii "hello", true⟩], ramFiles := [(ascii "MANIFEST-000001", 0)] },
          .ok ⟨ascii "hello", 0, ⟨TypeManifest, 1⟩, false⟩) ∧
    ((⟨ascii "hello", 0, ⟨TypeManifest, 1⟩, false⟩ : memReader).Close
      { NewS3Storage ⟨[(ascii "MANIFEST-000001", ascii "hello")], []⟩ with
            files := [⟨ascii "hello", true⟩], ramFiles := [(ascii "MANIFEST-000001", 0)] }).2
      = .ok () ∧
    ((⟨ascii "hello", 0, ⟨TypeManifest, 1⟩, false⟩ : memReader).Close
      ((⟨ascii "hello", 0, ⟨TypeManifest, 1⟩, false⟩ : memReader).Close
        { NewS3Storage ⟨[(ascii "MANIFEST-000001", ascii "hello")], []⟩ with
            files := [⟨ascii "hello", true⟩],
            ramFiles := [(ascii "MANIFEST-000001", 0)] }).1).2
      = .ok () ∧
    (NewS3Storage ⟨[], []⟩).Create ⟨TypeManifest, 1⟩
      = (newWithManifest1 ⟨[], []⟩, .ok ⟨0, ⟨TypeManifest, 1⟩, false⟩) ∧
    ((⟨0, ⟨TypeManifest, 1⟩, false⟩ : memWriter).Close (newWithManifest1 ⟨[], []⟩)).2 = .ok () ∧
    ((⟨0, ⟨TypeManifest, 1⟩, false⟩ : memWriter).Close
      ((⟨0, ⟨TypeManifest, 1⟩, false⟩ : memWriter).Close (newWithManifest1 ⟨[], []⟩)).1).2
      = .ok () := by
  decide

/-! ## Sync -/

/-- C13. `Sync` flushes only manifests: for every writer `mw` and every state
of its storage, `Sync()` leaves the map `ramFiles` and every `memFile` (bytes
and flag `open`) as they are; when the type of the descriptor is
`TypeManifest` it makes one `PutBytes` request with the name of the
descriptor and the bytes of the buffer and returns the error of that request,
if any; for every other type it returns no error and leaves the whole state,
the store included, as it is. -/
theorem sync_flushes_manifest_only (mw : memWriter) (ms : S3Storage) :
    (mw.Sync ms).1.ramFiles = ms.ramFiles ∧ (mw.Sync ms).1.files = ms.files ∧
      (mw.fd.Typ = TypeManifest →
        (mw.Sync ms).1.objStore
            = (ms.objStore.PutBytes mw.fd.String (ms.file mw.memFile).Buffer).1 ∧
          (mw.Sync ms).2 =
            match (ms.objStore.PutBytes mw.fd.String (ms.file mw.memFile).Buffer).2 with
            | some e => .err e
            | none => .ok ()) ∧
      (mw.fd.Typ ≠ TypeManifest → mw.Sync ms = (ms, .ok ())) := by
  unfold memWriter.Sync
  by_cases ht : mw.fd.Typ = TypeManifest
  · simp only [ht, if_true, ne_eq, not_true_eq_false, false_implies, and_true, true_implies]
    rcases ms.objStore.PutBytes mw.fd.String (ms.file mw.memFile).Buffer with ⟨c, _ | e⟩
    · exact ⟨rfl, rfl, rfl, rfl⟩
    · exact ⟨rfl, rfl, rfl, rfl⟩
  · simp only [ht, if_false, false_implies, ne_eq, not_false_eq_true, true_implies, and_self]

/-- C13 on the writer of `{Manifest,1}` after `"hello"` was written, over a
store that accepts the request: the object is `"hello"`; and on a writer of
`{Journal,1}`: nothing changes. -/
theorem sync_flushes_manifest_only_witness :
    (⟨0, ⟨TypeManifest, 1⟩, false⟩ : memWriter).fd.Typ = TypeManifest ∧
    mapGet ((⟨0, ⟨TypeManifest, 1⟩, false⟩ : memWriter).Sync
      ((⟨0, ⟨TypeManifest, 1⟩, false⟩ : memWriter).Write (ascii "hello")
        (newWithManifest1 ⟨[], []⟩)).1).1.objStore.objects (ascii "MANIFEST-000001")
      = some (ascii "hello") ∧
    (⟨0, ⟨TypeJournal, 1⟩, false⟩ : memWriter).fd.Typ ≠ TypeManifest ∧
    (⟨0, ⟨TypeJournal, 1⟩, false⟩ : memWriter).Sync
        ((NewS3Storage ⟨[], []⟩).Create ⟨TypeJournal, 1⟩).1
      = (((NewS3Storage ⟨[], []⟩).Create ⟨TypeJournal, 1⟩).1, .ok ()) := by
  have h1 := (sync_flushes_manifest_only ⟨0, ⟨TypeManifest, 1⟩, false⟩
    ((⟨0, ⟨TypeManifest, 1⟩, false⟩ : memWriter).Write (ascii "hello")
        (newWithManifest1 ⟨[], []⟩)).1).2.2.1 rfl
  have h2 := (sync_flushes_manifest_only ⟨0, ⟨TypeJournal, 1⟩, false⟩
    ((NewS3Storage ⟨[], []⟩).Create ⟨TypeJournal, 1⟩).1).2.2.2 (by decide)
  refine ⟨rfl, ?_, by decide, h2⟩
  rw [h1.1]
  decide

/-! ## GetMeta without a record, Open without a buffer -/

theorem GetBytes_absent (c : S3Client) (key : Bytes) (h : mapGet c.objects key = none) :
    ∃ e, (c.GetBytes key).2 = .error e := by
  unfold S3Client.GetBytes
  split
  · exact ⟨_, rfl⟩
  · rw [h]
    exact ⟨_, rfl⟩

/-- C14. `GetMeta` on a new database: on every state, if the cached pointer is
the zero descriptor and the store has no object under `CURRENT`, then
`GetMeta()` returns `ErrNotExist` and the cached pointer is still the zero
descriptor; and whenever `GetMeta()` returns a descriptor, that descriptor is
not the zero descriptor and is the cached pointer after the call. -/
theorem getmeta_not_found (ms : S3Storage) :
    (ms.meta.Zero = true → mapGet ms.objStore.objects (ascii "CURRENT") = none →
        ms.GetMeta.2 = .err .ErrNotExist ∧ ms.GetMeta.1.meta.Zero = true) ∧
      (∀ fd, ms.GetMeta.2 = .ok fd → fd.Zero = false ∧ ms.GetMeta.1.meta = fd) := by
  constructor
  · intro hz habs
    obtain ⟨e, he⟩ := GetBytes_absent ms.objStore (ascii "CURRENT") habs
    unfold S3Storage.GetMeta
    rw [if_pos hz]
    rcases hb : ms.objStore.GetBytes (ascii "CURRENT") with ⟨c, e1 | data⟩
    · exact ⟨rfl, hz⟩
    · rw [hb] at he
      simp at he
  · intro fd hfd
    unfold S3Storage.GetMeta at hfd ⊢
    by_cases hz : ms.meta.Zero = true
    · rw [if_pos hz] at hfd ⊢
      rcases hb : ms.objStore.GetBytes (ascii "CURRENT") with ⟨c, e1 | data⟩
      · rw [hb] at hfd
        simp at hfd
      · rw [hb] at hfd
        simp only at hfd ⊢
        by_cases hz2 : (⟨(scanMeta data).1, (scanMeta data).2⟩ : FileDesc).Zero = true
        · rw [if_pos hz2] at hfd
          simp at hfd
        · rw [if_neg hz2] at hfd ⊢
          simp only [Res.ok.injEq] at hfd
          rw [← hfd]
          exact ⟨by simpa using hz2, rfl⟩
    · rw [if_neg hz] at hfd ⊢
      simp only [Res.ok.injEq] at hfd
      rw [← hfd]
      exact ⟨by simpa using hz, rfl⟩

/-- C14 on a new storage over an empty store, and on the storage whose
`SetMeta({Manifest,1})` succeeded. -/
theorem getmeta_not_found_witness :
    (NewS3Storage ⟨[], []⟩).meta.Zero = true ∧
    mapGet (NewS3Storage ⟨[], []⟩).objStore.objects (ascii "CURRENT") = none ∧
    (NewS3Storage ⟨[], []⟩).GetMeta.2 = .err .ErrNotExist ∧
    ((newWithManifest1 ⟨[], []⟩).SetMeta ⟨TypeManifest, 1⟩).1.GetMeta.2 = .ok ⟨TypeManifest, 1⟩ ∧
    ((newWithManifest1 ⟨[], []⟩).SetMeta ⟨TypeManifest, 1⟩).1.GetMeta.1.meta = ⟨TypeManifest, 1⟩ :=
  ⟨by decide, by decide,
    ((getmeta_not_found (NewS3Storage ⟨[], []⟩)).1 (by decide) (by decide)).1,
    by decide,
    ((getmeta_not_found ((newWithManifest1 ⟨[], []⟩).SetMeta ⟨TypeManifest, 1⟩).1).2
      ⟨TypeManifest, 1⟩ (by decide)).2⟩

/-- C15. `Open` without a buffer mirrors the store: on every state, for every
well-formed descriptor `d` without an entry in `ramFiles`, if the store has no
object under the name of `d` then `Open(d)` returns `ErrNotExist` and leaves
`ramFiles` as it is; if the store holds the bytes `b` under that name and
accepts the request, then `Open(d)` gives a reader whose content is `b`, and
`ramFiles` has an entry for `d` whose buffer holds `b` and is open, the other
entries being as before. -/
theorem open_miss_mirrors_store (ms : S3Storage) (d : FileDesc) (hd : FileDescOk d = true)
    (hmiss : mapGet ms.ramFiles d.String = none) :
    (mapGet ms.objStore.objects d.String = none →
        (ms.Open d).2 = .err .ErrNotExist ∧ (ms.Open d).1.ramFiles = ms.ramFiles) ∧
      (∀ b, mapGet ms.objStore.objects d.String = some b → ms.objStore.nextFault = none →
        ∃ mr, (ms.Open d).2 = .ok mr ∧ mr.readAll = b ∧
          mapGet (ms.Open d).1.ramFiles d.String = some mr.m ∧
          (ms.Open d).1.file mr.m = ⟨b, true⟩ ∧
          ∀ k, k ≠ d.String → mapGet (ms.Open d).1.ramFiles k = mapGet ms.ramFiles k) := by
  rw [Open_miss ms d hd hmiss]
  constructor
  · intro habs
    obtain ⟨e, he⟩ := GetBytes_absent ms.objStore d.String habs
    rcases hb : ms.objStore.GetBytes d.String with ⟨c, e1 | data⟩
    · exact ⟨rfl, rfl⟩
    · rw [hb] at he
      simp at he
  · intro b hb hacc
    have hg := GetBytes_accepted ms.objStore d.String hacc
    rw [hb] at hg
    rcases hr : ms.objStore.GetBytes d.String with ⟨c, e1 | data⟩
    · rw [hr] at hg
      simp at hg
    · rw [hr] at hg
      simp only [Except.ok.injEq] at hg
      subst hg
      refine ⟨_, rfl, rfl, mapGet_mapSet_self _ _ _, ?_,
        fun k hk => mapGet_mapSet_ne _ _ _ _ hk⟩
      simp [S3Storage.file]

/-- C15 at `d = {Manifest,1}` on a new storage, over an empty store and over a
store that holds `"hello"` under the name of `d`. -/
theorem open_miss_mirrors_store_witness :
    FileDescOk ⟨TypeManifest, 1⟩ = true ∧
    mapGet (NewS3Storage ⟨[], []⟩).ramFiles (FileDesc.String ⟨TypeManifest, 1⟩) = none ∧
    ((NewS3Storage ⟨[], []⟩).Open ⟨TypeManifest, 1⟩).2 = .err .ErrNotExist ∧
    ∃ mr, ((NewS3Storage ⟨[(ascii "MANIFEST-000001", ascii "hello")], []⟩).Open
        ⟨TypeManifest, 1⟩).2 = .ok mr ∧ mr.readAll = ascii "hello" := by
  have h1 := (open_miss_mirrors_store (NewS3Storage ⟨[], []⟩) ⟨TypeManifest, 1⟩
    (by decide) (by decide)).1 (by decide)
  obtain ⟨mr, h2, h3, _⟩ := (open_miss_mirrors_store
    (NewS3Storage ⟨[(ascii "MANIFEST-000001", ascii "hello")], []⟩) ⟨TypeManifest, 1⟩
    (by decide) (by decide)).2 (ascii "hello") (by decide) (by decide)
  exact ⟨by decide, by decide, h1.1, mr, h2, h3⟩

/-! ## Descriptors that are not well-formed, Remove -/

/-- C16. Descriptors that are not well-formed are rejected: on every state,
for every descriptor `d` that `FileDescOk` refuses (a type that is none of the
four file types, or a negative number), `SetMeta(d)`, `Open(d)`, `Create(d)`,
`Remove(d)`, `Rename(d, x)` and `Rename(x, d)` return `ErrInvalidFile` and
leave the whole state as it is: the map, the cached pointer, the lock slot,
and the store, to which no request was made. -/
theorem malformed_rejected (ms : S3Storage) (d x : FileDesc) (hd : FileDescOk d = false) :
    ms.SetMeta d = (ms, .err .ErrInvalidFile) ∧
      ms.Open d = (ms, .err .ErrInvalidFile) ∧
      ms.Create d = (ms, .err .ErrInvalidFile) ∧
      ms.Remove d = (ms, .err .ErrInvalidFile) ∧
      ms.Rename d x = (ms, .err .ErrInvalidFile) ∧
      ms.Rename x d = (ms, .err .ErrInvalidFile) := by
  simp [S3Storage.SetMeta, S3Storage.Open, S3Storage.Create, S3Storage.Remove,
    S3Storage.Rename, hd]

/-- C16 at the descriptor `{Manifest,-1}`, of a negative number, and at
`{3,1}`, of a type that is none of the four. -/
theorem malformed_rejected_witness :
    FileDescOk ⟨TypeManifest, -1⟩ = false ∧ FileDescOk ⟨3, 1⟩ = false ∧
    (newWithManifest1 ⟨[], []⟩).Open ⟨TypeManifest, -1⟩
      = (newWithManifest1 ⟨[], []⟩, .err .ErrInvalidFile) ∧
    (newWithManifest1 ⟨[], []⟩).Rename ⟨TypeManifest, 1⟩ ⟨3, 1⟩
      = (newWithManifest1 ⟨[], []⟩, .err .ErrInvalidFile) :=
  ⟨by decide, by decide,
    (malformed_rejected (newWithManifest1 ⟨[], []⟩) ⟨TypeManifest, -1⟩ ⟨TypeManifest, 1⟩
      (by decide)).2.1,
    (malformed_rejected (newWithManifest1 ⟨[], []⟩) ⟨3, 1⟩ ⟨TypeManifest, 1⟩
      (by decide)).2.2.2.2.2⟩

theorem Remove_files (fd : FileDesc) (ms : S3Storage) : (ms.Remove fd).1.files = ms.files := by
  unfold S3Storage.Remove
  split_ifs
  all_goals repeat' split
  all_goals rfl

theorem Remove_absent (c : S3Client) (key : Bytes) (h : mapGet c.objects key = none) :
    ∃ e, (c.Remove key).2 = some e := by
  unfold S3Client.Remove
  split
  · exact ⟨_, rfl⟩
  · rw [h]
    exact ⟨_, rfl⟩

/-- C17. `Remove`: on every state, for every well-formed descriptor `d`, after
`Remove(d)` the map `ramFiles` has no entry for the name of `d`, its other
entries and every `memFile` are as before, whatever the call returns; the call returns no error
when the remote delete succeeds and `ErrNotExist` when it fails, and nothing
else; so when the store has no object under the name of `d`, `Create(d)`
followed by `Remove(d)` returns `ErrNotExist` and the buffer is gone from the
map all the same. -/
theorem remove_drops_buffer (ms : S3Storage) (d : FileDesc) (hd : FileDescOk d = true) :
    mapGet (ms.Remove d).1.ramFiles d.String = none ∧
      (∀ k, k ≠ d.String → mapGet (ms.Remove d).1.ramFiles k = mapGet ms.ramFiles k) ∧
      (ms.Remove d).1.files = ms.files ∧
      ((ms.Remove d).2 = .ok () ↔ (ms.objStore.Remove d.String).2 = none) ∧
      ((ms.Remove d).2 = .err .ErrNotExist ↔ (ms.objStore.Remove d.String).2 ≠ none) ∧
      (mapGet ms.objStore.objects d.String = none →
        ((ms.Create d).1.Remove d).2 = .err .ErrNotExist ∧
          mapGet ((ms.Create d).1.Remove d).1.ramFiles d.String = none) := by
  have key : ∀ s : S3Storage,
      mapGet (s.Remove d).1.ramFiles d.String = none ∧
      (∀ k, k ≠ d.String → mapGet (s.Remove d).1.ramFiles k = mapGet s.ramFiles k) ∧
      ((s.Remove d).2 = .ok () ↔ (s.objStore.Remove d.String).2 = none) ∧
      ((s.Remove d).2 = .err .ErrNotExist ↔ (s.objStore.Remove d.String).2 ≠ none) := by
    intro s
    simp only [S3Storage.Remove, hd, not_true_eq_false, if_false]
    rcases s.objStore.Remove d.String with ⟨c, _ | e⟩
    · exact ⟨mapGet_mapDelete_self _ _, fun k hk => mapGet_mapDelete_ne _ _ _ hk,
        by simp, by simp⟩
    · exact ⟨mapGet_mapDelete_self _ _, fun k hk => mapGet_mapDelete_ne _ _ _ hk,
        by simp, by simp⟩
  obtain ⟨h1, h2, h3, h4⟩ := key ms
  refine ⟨h1, h2, Remove_files d ms, h3, h4, fun habs => ?_⟩
  obtain ⟨g1, _, _, g4⟩ := key (ms.Create d).1
  refine ⟨g4.mpr ?_, g1⟩
  rw [Create_ok ms d hd]
  obtain ⟨e, he⟩ := Remove_absent ms.objStore d.String habs
  simp [he]

/-- C17 at `d = {Manifest,1}` on a new storage over an empty store: `Create`
then `Remove` returns `ErrNotExist` and the map is empty. -/
theorem remove_drops_buffer_witness :
    FileDescOk ⟨TypeManifest, 1⟩ = true ∧
    mapGet (NewS3Storage ⟨[], []⟩).objStore.objects (FileDesc.String ⟨TypeManifest, 1⟩) = none ∧
    (((NewS3Storage ⟨[], []⟩).Create ⟨TypeManifest, 1⟩).1.Remove ⟨TypeManifest, 1⟩).2
      = .err .ErrNotExist ∧
    (((NewS3Storage ⟨[], []⟩).Create ⟨TypeManifest, 1⟩).1.Remove ⟨TypeManifest, 1⟩).1.ramFiles
      = [] :=
  ⟨by decide, by decide,
    ((remove_drops_buffer (NewS3Storage ⟨[], []⟩) ⟨TypeManifest, 1⟩ (by decide)).2.2.2.2.2
      (by decide)).1,
    by decide⟩

/-! ## The flag `open` along a run -/

theorem Sys_transfer (s t : Sys) (h : s.openHasHandle)
    (hfile : ∀ p, (t.ms.file p).isOpen = true →
      ((s.ms.file p).isOpen = true ∧ (∀ mr ∈ s.readers, mr.m = p → mr ∈ t.readers) ∧
          (∀ mw ∈ s.writers, mw.memFile = p → mw ∈ t.writers)) ∨
        (∃ mr ∈ t.readers, mr.m = p) ∨ (∃ mw ∈ t.writers, mw.memFile = p)) :
    t.openHasHandle := by
  intro p hp
  rcases hfile p hp with ⟨h1, h2, h3⟩ | h4 | h5
  · rcases h p h1 with ⟨mr, hmr, hm⟩ | ⟨mw, hmw, hm⟩
    · exact Or.inl ⟨mr, h2 mr hmr hm, hm⟩
    · exact Or.inr ⟨mw, h3 mw hmw hm, hm⟩
  · exact Or.inl h4
  · exact Or.inr h5

theorem Sys_same_files (s : Sys) (ms1 : S3Storage) (h : s.openHasHandle)
    (hf : ms1.files = s.ms.files) : ({ s with ms := ms1 } : Sys).openHasHandle := by
  apply Sys_transfer s _ h
  intro p hp
  rw [file_eq_of_files _ _ p hf] at hp
  exact Or.inl ⟨hp, fun _ h _ => h, fun _ h _ => h⟩

theorem Lock_files (self : Nat) (ms : S3Storage) : (ms.Lock self).1.files = ms.files := by
  unfold S3Storage.Lock
  split_ifs <;> rfl

theorem Unlock_own (lock : S3StorageLock) (ms : S3Storage) :
    lock.Unlock (fun _ => ms) 0 = ms ∨ lock.Unlock (fun _ => ms) 0 = { ms with slock := none } := by
  unfold S3StorageLock.Unlock
  split_ifs with h
  · by_cases h0 : lock.ms = 0
    · right
      rw [h0]
      simp
    · left
      rw [Function.update_noteq (Ne.symm h0)]
  · left; rfl

theorem SetMeta_frame (fd : FileDesc) (ms : S3Storage) :
    (ms.SetMeta fd).1.files = ms.files ∧ (ms.SetMeta fd).1.ramFiles = ms.ramFiles := by
  unfold S3Storage.SetMeta
  split_ifs
  all_goals repeat' split
  all_goals exact ⟨rfl, rfl⟩

theorem GetMeta_frame (ms : S3Storage) :
    ms.GetMeta.1.files = ms.files ∧ ms.GetMeta.1.ramFiles = ms.ramFiles := by
  unfold S3Storage.GetMeta
  split_ifs
  all_goals repeat' split
  all_goals first
    | exact ⟨rfl, rfl⟩
    | (simp only; split_ifs <;> exact ⟨rfl, rfl⟩)

theorem List_frame (ft : Int) (ms : S3Storage) :
    (ms.List ft).1.files = ms.files ∧ (ms.List ft).1.ramFiles = ms.ramFiles := by
  unfold S3Storage.List
  split <;> exact ⟨rfl, rfl⟩

theorem Rename_eq (oldfd newfd : FileDesc) (ms : S3Storage) : (ms.Rename oldfd newfd).1 = ms := by
  unfold S3Storage.Rename
  split_ifs <;> rfl

theorem Sync_frame (mw : memWriter) (ms : S3Storage) :
    (mw.Sync ms).1.files = ms.files ∧ (mw.Sync ms).1.ramFiles = ms.ramFiles := by
  unfold memWriter.Sync
  split_ifs
  all_goals repeat' split
  all_goals exact ⟨rfl, rfl⟩

theorem Write_isOpen (mw : memWriter) (b : Bytes) (ms : S3Storage) (p : Nat) :
    ((mw.Write b ms).1.file p).isOpen = (ms.file p).isOpen := by
  simp only [memWriter.Write]
  rw [file_setFile]
  split_ifs with h
  · rw [h.1]
  · rfl

theorem setFile_closed_isOpen (ms : S3Storage) (q p : Nat)
    (h : ((ms.setFile q { ms.file q with isOpen := false }).file p).isOpen = true) :
    p ≠ q ∧ (ms.file p).isOpen = true := by
  rw [file_setFile] at h
  split_ifs at h with hc
  refine ⟨?_, h⟩
  rintro rfl
  have hlt : ¬ p < ms.files.length := fun hl => hc ⟨rfl, hl⟩
  have : ms.file p = ⟨[], false⟩ := by
    unfold S3Storage.file
    rw [List.getElem?_eq_none (by omega)]
    rfl
  rw [this] at h
  simp at h

theorem mem_eraseIdx_of_ne {α : Type} (l : List α) (i : Nat) (x a : α) (hx : l[i]? = some x)
    (ha : a ∈ l) (hne : a ≠ x) : a ∈ l.eraseIdx i := by
  obtain ⟨j, hj⟩ := List.mem_iff_getElem?.mp ha
  refine List.mem_eraseIdx_iff_getElem?.mpr ⟨j, ?_, hj⟩
  rintro rfl
  rw [hx] at hj
  exact hne (Option.some.inj hj).symm

theorem Open_flags (ms s1 : S3Storage) (fd : FileDesc) (r : Res memReader)
    (h : ms.Open fd = (s1, r)) :
    (∀ mr, r = .ok mr → ∀ p, (s1.file p).isOpen = true → p = mr.m ∨ (ms.file p).isOpen = true) ∧
      ((∀ mr, r ≠ .ok mr) → s1.files = ms.files) := by
  unfold S3Storage.Open at h
  by_cases hd : FileDescOk fd = true
  · simp only [hd, not_true_eq_false, if_false] at h
    cases hg : mapGet ms.ramFiles fd.String with
    | some q =>
      rw [hg] at h
      simp only [Prod.mk.injEq] at h
      obtain ⟨h1, h2⟩ := h
      subst h1 h2
      refine ⟨?_, fun hne => absurd rfl (hne _)⟩
      intro mr hmr p hp
      simp only [Res.ok.injEq] at hmr
      subst hmr
      rw [file_setFile] at hp
      split_ifs at hp with hc
      · exact Or.inl hc.1.symm
      · exact Or.inr hp
    | none =>
      rw [hg] at h
      rcases hb : ms.objStore.GetBytes fd.String with ⟨c, e | data⟩
      · rw [hb] at h
        simp only [Prod.mk.injEq] at h
        obtain ⟨h1, h2⟩ := h
        subst h1 h2
        exact ⟨fun mr hmr => by simp at hmr, fun _ => rfl⟩
      · rw [hb] at h
        simp only [Prod.mk.injEq] at h
        obtain ⟨h1, h2⟩ := h
        subst h1 h2
        refine ⟨?_, fun hne => absurd rfl (hne _)⟩
        intro mr hmr p hp
        simp only [Res.ok.injEq] at hmr
        subst hmr
        rw [file_of_append _ ms ⟨data, true⟩ p rfl] at hp
        split_ifs at hp with hc
        · exact Or.inl hc
        · exact Or.inr hp
  · simp only [hd, Bool.false_eq_true, not_false_eq_true, if_true, Prod.mk.injEq] at h
    obtain ⟨h1, h2⟩ := h
    subst h1 h2
    exact ⟨fun mr hmr => by simp at hmr, fun _ => rfl⟩

theorem Create_flags (ms s1 : S3Storage) (fd : FileDesc) (r : Res memWriter)
    (h : ms.Create fd = (s1, r)) :
    (∀ mw, r = .ok mw → ∀ p, (s1.file p).isOpen = true →
        p = mw.memFile ∨ (ms.file p).isOpen = true) ∧
      ((∀ mw, r ≠ .ok mw) → s1.files = ms.files) := by
  unfold S3Storage.Create at h
  by_cases hd : FileDescOk fd = true
  · simp only [hd, not_true_eq_false, if_false, Prod.mk.injEq] at h
    obtain ⟨h1, h2⟩ := h
    subst h1 h2
    refine ⟨?_, fun hne => absurd rfl (hne _)⟩
    intro mw hmw p hp
    simp only [Res.ok.injEq] at hmw
    subst hmw
    rw [file_of_append _ ms ⟨[], true⟩ p rfl] at hp
    split_ifs at hp with hc
    · exact Or.inl hc
    · exact Or.inr hp
  · simp only [hd, Bool.false_eq_true, not_false_eq_true, if_true, Prod.mk.injEq] at h
    obtain ⟨h1, h2⟩ := h
    subst h1 h2
    exact ⟨fun mw hmw => by simp at hmw, fun _ => rfl⟩

theorem ReaderClose_flags (mr : memReader) (ms s1 : S3Storage) (r : Res Unit)
    (h : mr.Close ms = (s1, r)) :
    (r = .ok () → ∀ p, (s1.file p).isOpen = true → p ≠ mr.m ∧ (ms.file p).isOpen = true) ∧
      (r ≠ .ok () → s1.files = ms.files) := by
  unfold memReader.Close at h
  by_cases hc : mr.closed = true
  · simp only [hc, if_true, Prod.mk.injEq] at h
    obtain ⟨h1, h2⟩ := h
    subst h1 h2
    exact ⟨fun hr => by simp at hr, fun _ => rfl⟩
  · simp only [hc, Bool.false_eq_true, if_false, Prod.mk.injEq] at h
    obtain ⟨h1, h2⟩ := h
    subst h1 h2
    refine ⟨fun _ p hp => ?_, fun hne => absurd rfl hne⟩
    refine setFile_closed_isOpen ms mr.m p ?_
    rw [← hp]
    exact congrArg memFile.isOpen (file_eq_of_files _ _ p rfl)

theorem WriterClose_flags (mw : memWriter) (ms s1 : S3Storage) (r : Res Unit)
    (h : mw.Close ms = (s1, r)) :
    (r = .ok () → ∀ p, (s1.file p).isOpen = true →
        p ≠ mw.memFile ∧ (ms.file p).isOpen = true) ∧
      (r ≠ .ok () → s1.files = ms.files) := by
  unfold memWriter.Close at h
  rcases hb : ms.objStore.PutBytes mw.fd.String (ms.file mw.memFile).Buffer with ⟨c, _ | e⟩
  · rw [hb] at h
    simp only at h
    by_cases hc : mw.closed = true
    · simp only [hc, if_true, Prod.mk.injEq] at h
      obtain ⟨h1, h2⟩ := h
      subst h1 h2
      exact ⟨fun hr => by simp at hr, fun _ => rfl⟩
    · simp only [hc, Bool.false_eq_true, if_false, Prod.mk.injEq] at h
      obtain ⟨h1, h2⟩ := h
      subst h1 h2
      refine ⟨fun _ p hp => ?_, fun hne => absurd rfl hne⟩
      refine setFile_closed_isOpen ms mw.memFile p ?_
      rw [← hp]
      exact congrArg memFile.isOpen (file_eq_of_files _ _ p rfl)
  · rw [hb] at h
    simp only [Prod.mk.injEq] at h
    obtain ⟨h1, h2⟩ := h
    subst h1 h2
    exact ⟨fun hr => by simp at hr, fun _ => rfl⟩

theorem step_openHasHandle (s : Sys) (op : Op) (h : s.openHasHandle) :
    (s.step op).openHasHandle := by
  cases op with
  | Lock => exact Sys_same_files s _ h (Lock_files 0 s.ms)
  | Unlock lock =>
    refine Sys_same_files s _ h ?_
    rcases Unlock_own lock s.ms with h1 | h1 <;> rw [h1]
  | SetMeta fd => exact Sys_same_files s _ h (SetMeta_frame fd s.ms).1
  | GetMeta => exact Sys_same_files s _ h (GetMeta_frame s.ms).1
  | List ft => exact Sys_same_files s _ h (List_frame ft s.ms).1
  | Remove fd => exact Sys_same_files s _ h (Remove_files fd s.ms)
  | Rename oldfd newfd => exact Sys_same_files s _ h (by rw [Rename_eq])
  | Close => exact Sys_same_files s _ h rfl
  | Open fd =>
    simp only [Sys.step]
    rcases ho : s.ms.Open fd with ⟨s1, r⟩
    obtain ⟨h1, h2⟩ := Open_flags s.ms s1 fd r ho
    cases r with
    | ok mr =>
      apply Sys_transfer s _ h
      intro p hp
      rcases h1 mr rfl p hp with hm | hm
      · exact Or.inr (Or.inl ⟨mr, List.mem_cons_self _ _, hm.symm⟩)
      · exact Or.inl ⟨hm, fun _ hx _ => List.mem_cons_of_mem _ hx, fun _ hx _ => hx⟩
    | err e => exact Sys_same_files s _ h (h2 (fun mr => by simp))
    | panic => exact Sys_same_files s _ h (h2 (fun mr => by simp))
  | Create fd =>
    simp only [Sys.step]
    rcases ho : s.ms.Create fd with ⟨s1, r⟩
    obtain ⟨h1, h2⟩ := Create_flags s.ms s1 fd r ho
    cases r with
    | ok mw =>
      apply Sys_transfer s _ h
      intro p hp
      rcases h1 mw rfl p hp with hm | hm
      · exact Or.inr (Or.inr ⟨mw, List.mem_cons_self _ _, hm.symm⟩)
      · exact Or.inl ⟨hm, fun _ hx _ => hx, fun _ hx _ => List.mem_cons_of_mem _ hx⟩
    | err e => exact Sys_same_files s _ h (h2 (fun mw => by simp))
    | panic => exact Sys_same_files s _ h (h2 (fun mw => by simp))
  | ReaderClose i =>
    simp only [Sys.step]
    cases hi : s.readers[i]? with
    | none => exact h
    | some mr =>
      simp only
      rcases ho : mr.Close s.ms with ⟨s1, r⟩
      obtain ⟨h1, h2⟩ := ReaderClose_flags mr s.ms s1 r ho
      cases r with
      | ok u =>
        apply Sys_transfer s _ h
        intro p hp
        obtain ⟨hne, hm⟩ := h1 rfl p hp
        refine Or.inl ⟨hm, fun x hx hxp => ?_, fun _ hx _ => hx⟩
        exact mem_eraseIdx_of_ne _ i mr x hi hx (fun e => hne (by rw [← hxp, e]))
      | err e => exact Sys_same_files s _ h (h2 (by simp))
      | panic => exact Sys_same_files s _ h (h2 (by simp))
  | WriterWrite i b =>
    simp only [Sys.step]
    cases hi : s.writers[i]? with
    | none => exact h
    | some mw =>
      apply Sys_transfer s _ h
      intro p hp
      simp only at hp
      rw [Write_isOpen] at hp
      exact Or.inl ⟨hp, fun _ hx _ => hx, fun _ hx _ => hx⟩
  | WriterSync i =>
    simp only [Sys.step]
    cases hi : s.writers[i]? with
    | none => exact h
    | some mw => exact Sys_same_files s _ h (Sync_frame mw s.ms).1
  | WriterClose i =>
    simp only [Sys.step]
    cases hi : s.writers[i]? with
    | none => exact h
    | some mw =>
      simp only
      rcases ho : mw.Close s.ms with ⟨s1, r⟩
      obtain ⟨h1, h2⟩ := WriterClose_flags mw s.ms s1 r ho
      cases r with
      | ok u =>
        apply Sys_transfer s _ h
        intro p hp
        obtain ⟨hne, hm⟩ := h1 rfl p hp
        refine Or.inl ⟨hm, fun _ hx _ => hx, fun x hx hxp => ?_⟩
        exact mem_eraseIdx_of_ne _ i mw x hi hx (fun e => hne (by rw [← hxp, e]))
      | err e => exact Sys_same_files s _ h (h2 (by simp))
      | panic => exact Sys_same_files s _ h (h2 (by simp))

theorem run_openHasHandle (s : Sys) (ops : List Op) (h : s.openHasHandle) :
    (s.run ops).openHasHandle := by
  induction ops generalizing s with
  | nil => exact h
  | cons op ops ih => exact ih (s.step op) (step_openHasHandle s op h)

/-- C18, as stated, fails. On a new storage over an empty store,
`Create({Manifest,1})`, `Open({Manifest,1})` and the `Close()` of the reader
leave the buffer with the flag `open` unset while the writer of that buffer
is not closed; and over a store that holds the file, two `Open` calls and
the `Close()` of one reader leave the flag unset while the other reader of
that buffer is not closed. -/
theorem open_flag_counterexample :
    ((Sys.new ⟨[], []⟩).run
        [.Create ⟨TypeManifest, 1⟩, .Open ⟨TypeManifest, 1⟩, .ReaderClose 0]).writers
      = [⟨0, ⟨TypeManifest, 1⟩, false⟩] ∧
    (((Sys.new ⟨[], []⟩).run
        [.Create ⟨TypeManifest, 1⟩, .Open ⟨TypeManifest, 1⟩, .ReaderClose 0]).ms.file 0).isOpen
      = false ∧
    ((Sys.new ⟨[(ascii "MANIFEST-000001", ascii "hello")], []⟩).run
        [.Open ⟨TypeManifest, 1⟩, .Open ⟨TypeManifest, 1⟩, .ReaderClose 0]).readers
      = [⟨ascii "hello", 0, ⟨TypeManifest, 1⟩, false⟩] ∧
    (((Sys.new ⟨[(ascii "MANIFEST-000001", ascii "hello")], []⟩).run
        [.Open ⟨TypeManifest, 1⟩, .Open ⟨TypeManifest, 1⟩, .ReaderClose 0]).ms.file 0).isOpen
      = false := by
  decide

/-- C18, amended. In every state that a sequence of calls reaches from a new
storage (`Create`, `Open`, `Remove`, the `Close` of a reader, the `Write`,
`Sync` and `Close` of a writer, and the other calls of the storage), a buffer
whose flag `open` is set is the buffer of at least one reader or writer that
was not closed. -/
theorem open_flag_has_handle (c : S3Client) (ops : List Op) (p : Nat)
    (hopen : (((Sys.new c).run ops).ms.file p).isOpen = true) :
    (∃ mr ∈ ((Sys.new c).run ops).readers, mr.m = p) ∨
      (∃ mw ∈ ((Sys.new c).run ops).writers, mw.memFile = p) := by
  have h0 : (Sys.new c).openHasHandle := by
    intro q hq
    simp [Sys.new, NewS3Storage, S3Storage.file] at hq
  exact run_openHasHandle _ ops h0 p hopen

/-- C18, amended, after `Create({Manifest,1})` and `Open({Manifest,1})` on a
new storage: the flag of the buffer is set, and it has a reader and a writer. -/
theorem open_flag_has_handle_witness :
    (((Sys.new ⟨[], []⟩).run [.Create ⟨TypeManifest, 1⟩, .Open ⟨TypeManifest, 1⟩]).ms.file 0).isOpen
      = true ∧
    ((∃ mr ∈ ((Sys.new ⟨[], []⟩).run
        [.Create ⟨TypeManifest, 1⟩, .Open ⟨TypeManifest, 1⟩]).readers, mr.m = 0) ∨
      (∃ mw ∈ ((Sys.new ⟨[], []⟩).run
        [.Create ⟨TypeManifest, 1⟩, .Open ⟨TypeManifest, 1⟩]).writers, mw.memFile = 0)) :=
  ⟨by decide, open_flag_has_handle ⟨[], []⟩
    [.Create ⟨TypeManifest, 1⟩, .Open ⟨TypeManifest, 1⟩] 0 (by decide)⟩

/-! ## The cached pointer -/

theorem SetMeta_meta (fd : FileDesc) (ms : S3Storage) :
    (ms.SetMeta fd).1.meta = ms.meta ∨ (FileDescOk fd = true ∧ (ms.SetMeta fd).1.meta = fd) := by
  unfold S3Storage.SetMeta
  by_cases hd : FileDescOk fd = true
  · simp only [hd, not_true_eq_false, if_false, true_and]
    repeat' split
    all_goals first
      | exact Or.inl rfl
      | exact Or.inr rfl
  · simp [hd]

theorem Open_meta (fd : FileDesc) (ms : S3Storage) : (ms.Open fd).1.meta = ms.meta := by
  unfold S3Storage.Open
  split_ifs
  all_goals repeat' split
  all_goals rfl

theorem Create_meta (fd : FileDesc) (ms : S3Storage) : (ms.Create fd).1.meta = ms.meta := by
  unfold S3Storage.Create
  split_ifs <;> rfl

theorem Remove_meta (fd : FileDesc) (ms : S3Storage) : (ms.Remove fd).1.meta = ms.meta := by
  unfold S3Storage.Remove
  split_ifs
  all_goals repeat' split
  all_goals rfl

theorem List_meta (ft : Int) (ms : S3Storage) : (ms.List ft).1.meta = ms.meta := by
  unfold S3Storage.List
  split <;> rfl

theorem ReaderClose_meta (mr : memReader) (ms : S3Storage) : (mr.Close ms).1.meta = ms.meta := by
  unfold memReader.Close
  split_ifs <;> rfl

theorem Sync_meta (mw : memWriter) (ms : S3Storage) : (mw.Sync ms).1.meta = ms.meta := by
  unfold memWriter.Sync
  split_ifs
  all_goals repeat' split
  all_goals rfl

theorem WriterClose_meta (mw : memWriter) (ms : S3Storage) : (mw.Close ms).1.meta = ms.meta := by
  unfold memWriter.Close
  repeat' split
  all_goals rfl

theorem Unlock_meta (lock : S3StorageLock) (heap : Nat → S3Storage) (a : Nat) :
    (lock.Unlock heap a).meta = (heap a).meta := by
  unfold S3StorageLock.Unlock
  split_ifs with h
  · by_cases ha : a = lock.ms
    · subst ha
      simp
    · rw [Function.update_noteq ha]
  · rfl

/-- C19. The cached pointer is never cleared: on every state whose cached
pointer is not the zero descriptor, after any one call, with any arguments,
on any handle and with any answer of the store (`Lock`, `Unlock` of any lock,
`SetMeta`, `GetMeta`, `List`, `Open`, `Create`, `Remove`, `Rename`, `Close`,
the `Close` of a reader, the `Write`, `Sync` and `Close` of a writer), the
cached pointer is not the zero descriptor. -/
theorem cached_pointer_kept (heap : Nat → S3Storage) (a : Nat)
    (h : (heap a).meta.Zero = false) :
    (∀ self, ((heap a).Lock self).1.meta.Zero = false) ∧
      (∀ lock : S3StorageLock, (lock.Unlock heap a).meta.Zero = false) ∧
      (∀ fd, ((heap a).SetMeta fd).1.meta.Zero = false) ∧
      (heap a).GetMeta.1.meta.Zero = false ∧
      (∀ ft, ((heap a).List ft).1.meta.Zero = false) ∧
      (∀ fd, ((heap a).Open fd).1.meta.Zero = false) ∧
      (∀ fd, ((heap a).Create fd).1.meta.Zero = false) ∧
      (∀ fd, ((heap a).Remove fd).1.meta.Zero = false) ∧
      (∀ oldfd newfd, ((heap a).Rename oldfd newfd).1.meta.Zero = false) ∧
      (heap a).Close.1.meta.Zero = false ∧
      (∀ mr : memReader, (mr.Close (heap a)).1.meta.Zero = false) ∧
      (∀ (mw : memWriter) (p : Bytes), (mw.Write p (heap a)).1.meta.Zero = false) ∧
      (∀ mw : memWriter, (mw.Sync (heap a)).1.meta.Zero = false) ∧
      (∀ mw : memWriter, (mw.Close (heap a)).1.meta.Zero = false) := by
  refine ⟨fun self => ?_, fun lock => ?_, fun fd => ?_, ?_, fun ft => ?_, fun fd => ?_,
    fun fd => ?_, fun fd => ?_, fun o n => ?_, h, fun mr => ?_, fun mw p => h, fun mw => ?_,
    fun mw => ?_⟩
  · unfold S3Storage.Lock
    split_ifs <;> exact h
  · rw [Unlock_meta]; exact h
  · rcases SetMeta_meta fd (heap a) with h1 | ⟨hd, h1⟩
    · rw [h1]; exact h
    · rw [h1]; exact FileDescOk_not_Zero fd hd
  · rw [GetMeta_cached _ h]; exact h
  · rw [List_meta]; exact h
  · rw [Open_meta]; exact h
  · rw [Create_meta]; exact h
  · rw [Remove_meta]; exact h
  · rw [Rename_eq]; exact h
  · rw [ReaderClose_meta]; exact h
  · rw [Sync_meta]; exact h
  · rw [WriterClose_meta]; exact h

/-- C19 on the storage whose `SetMeta({Manifest,1})` succeeded: a `SetMeta`
that the store fails and a `GetMeta` leave the pointer in place. -/
theorem cached_pointer_kept_witness :
    ((newWithManifest1 ⟨[], [none, none, some 3]⟩).SetMeta ⟨TypeManifest, 1⟩).1.meta.Zero = false ∧
    ((((newWithManifest1 ⟨[], [none, none, some 3]⟩).SetMeta ⟨TypeManifest, 1⟩).1.SetMeta
      ⟨TypeManifest, 1⟩).2 = .err (.remote 3)) ∧
    ((((newWithManifest1 ⟨[], [none, none, some 3]⟩).SetMeta ⟨TypeManifest, 1⟩).1.SetMeta
      ⟨TypeManifest, 1⟩).1.meta.Zero = false) :=
  ⟨by decide, by decide,
    (cached_pointer_kept
      (fun _ => ((newWithManifest1 ⟨[], [none, none, some 3]⟩).SetMeta ⟨TypeManifest, 1⟩).1) 0
      (by decide)).2.2.1 ⟨TypeManifest, 1⟩⟩

/-! ## The keys of the map along a run, List without repetition -/

theorem wellKeyed_mapDelete (m : List (Bytes × Nat)) (k : Bytes) (h : wellKeyed m) :
    wellKeyed (mapDelete m k) := by
  obtain ⟨h1, h2⟩ := h
  refine ⟨?_, fun e he => h2 e (List.mem_filter.mp he).1⟩
  exact h1.sublist ((List.filter_sublist m).map Prod.fst)

theorem wellKeyed_mapSet (m : List (Bytes × Nat)) (fd : FileDesc) (v : Nat)
    (hd : FileDescOk fd = true) (hr : fd.inRange) (h : wellKeyed m) :
    wellKeyed (mapSet m fd.String v) := by
  obtain ⟨h1, h2⟩ := wellKeyed_mapDelete m fd.String h
  refine ⟨?_, ?_⟩
  · simp only [mapSet, List.map_cons]
    refine List.nodup_cons.mpr ⟨?_, h1⟩
    intro hmem
    obtain ⟨e, he, hk⟩ := List.mem_map.mp hmem
    have := (List.mem_filter.mp he).2
    simp [hk] at this
  · intro e he
    rcases List.mem_cons.mp he with rfl | he
    · exact ⟨fd, hd, hr, rfl⟩
    · exact h2 e he

theorem Open_ramFiles (fd : FileDesc) (ms : S3Storage) :
    (ms.Open fd).1.ramFiles = ms.ramFiles ∨
      (FileDescOk fd = true ∧ ∃ v, (ms.Open fd).1.ramFiles = mapSet ms.ramFiles fd.String v) := by
  unfold S3Storage.Open
  by_cases hd : FileDescOk fd = true
  · simp only [hd, not_true_eq_false, if_false, true_and]
    repeat' split
    all_goals first
      | exact Or.inl rfl
      | exact Or.inr ⟨_, rfl⟩
  · simp [hd]

theorem Create_ramFiles (fd : FileDesc) (ms : S3Storage) :
    (ms.Create fd).1.ramFiles = ms.ramFiles ∨
      (FileDescOk fd = true ∧
        ∃ v, (ms.Create fd).1.ramFiles = mapSet ms.ramFiles fd.String v) := by
  unfold S3Storage.Create
  by_cases hd : FileDescOk fd = true
  · simp only [hd, not_true_eq_false, if_false, true_and]
    exact Or.inr ⟨_, rfl⟩
  · simp [hd]

theorem Remove_ramFiles (fd : FileDesc) (ms : S3Storage) :
    (ms.Remove fd).1.ramFiles = ms.ramFiles ∨
      (ms.Remove fd).1.ramFiles = mapDelete ms.ramFiles fd.String := by
  unfold S3Storage.Remove
  split_ifs
  all_goals repeat' split
  all_goals first
    | exact Or.inl rfl
    | exact Or.inr rfl

theorem ReaderClose_ramFiles (mr : memReader) (ms : S3Storage) :
    (mr.Close ms).1.ramFiles = ms.ramFiles ∨
      (mr.Close ms).1.ramFiles = mapDelete ms.ramFiles mr.fd.String := by
  unfold memReader.Close
  split_ifs
  · exact Or.inl rfl
  · exact Or.inr rfl

theorem step_wellKeyed (s : Sys) (op : Op) (hop : op.inRange) (h : wellKeyed s.ms.ramFiles) :
    wellKeyed (s.step op).ms.ramFiles := by
  cases op with
  | Lock =>
    simp only [Sys.step, S3Storage.Lock]
    split_ifs <;> exact h
  | Unlock lock =>
    simp only [Sys.step]
    rcases Unlock_own lock s.ms with h1 | h1 <;> rw [h1] <;> exact h
  | SetMeta fd =>
    simp only [Sys.step]
    rw [(SetMeta_frame fd s.ms).2]; exact h
  | GetMeta =>
    simp only [Sys.step]
    rw [(GetMeta_frame s.ms).2]; exact h
  | List ft =>
    simp only [Sys.step]
    rw [(List_frame ft s.ms).2]; exact h
  | Rename oldfd newfd =>
    simp only [Sys.step]
    rw [Rename_eq]; exact h
  | Close => exact h
  | Remove fd =>
    simp only [Sys.step]
    rcases Remove_ramFiles fd s.ms with h1 | h1 <;> rw [h1]
    · exact h
    · exact wellKeyed_mapDelete _ _ h
  | Open fd =>
    have hms : (s.step (.Open fd)).ms = (s.ms.Open fd).1 := by
      simp only [Sys.step]
      rcases s.ms.Open fd with ⟨s1, r⟩
      cases r <;> rfl
    rw [hms]
    rcases Open_ramFiles fd s.ms with h1 | ⟨hd, v, h1⟩ <;> rw [h1]
    · exact h
    · exact wellKeyed_mapSet _ fd v hd hop h
  | Create fd =>
    have hms : (s.step (.Create fd)).ms = (s.ms.Create fd).1 := by
      simp only [Sys.step]
      rcases s.ms.Create fd with ⟨s1, r⟩
      cases r <;> rfl
    rw [hms]
    rcases Create_ramFiles fd s.ms with h1 | ⟨hd, v, h1⟩ <;> rw [h1]
    · exact h
    · exact wellKeyed_mapSet _ fd v hd hop h
  | ReaderClose i =>
    simp only [Sys.step]
    cases hi : s.readers[i]? with
    | none => exact h
    | some mr =>
      have hms : (match mr.Close s.ms with
          | (ms1, .ok _) => ({ s with ms := ms1, readers := s.readers.eraseIdx i } : Sys)
          | (ms1, _) => { s with ms := ms1 }).ms = (mr.Close s.ms).1 := by
        rcases mr.Close s.ms with ⟨s1, r⟩
        cases r <;> rfl
      simp only
      rw [hms]
      rcases ReaderClose_ramFiles mr s.ms with h1 | h1 <;> rw [h1]
      · exact h
      · exact wellKeyed_mapDelete _ _ h
  | WriterWrite i b =>
    simp only [Sys.step]
    cases hi : s.writers[i]? with
    | none => exact h
    | some mw => exact h
  | WriterSync i =>
    simp only [Sys.step]
    cases hi : s.writers[i]? with
    | none => exact h
    | some mw =>
      simp only
      rw [(Sync_frame mw s.ms).2]; exact h
  | WriterClose i =>
    simp only [Sys.step]
    cases hi : s.writers[i]? with
    | none => exact h
    | some mw =>
      have hms : (match mw.Close s.ms with
          | (ms1, .ok _) => ({ s with ms := ms1, writers := s.writers.eraseIdx i } : Sys)
          | (ms1, _) => { s with ms := ms1 }).ms = (mw.Close s.ms).1 := by
        rcases mw.Close s.ms with ⟨s1, r⟩
        cases r <;> rfl
      simp only
      rw [hms, Close_ramFiles]; exact h

theorem run_wellKeyed (s : Sys) (ops : List Op) (hops : ∀ op ∈ ops, op.inRange)
    (h : wellKeyed s.ms.ramFiles) : wellKeyed (s.run ops).ms.ramFiles := by
  induction ops generalizing s with
  | nil => exact h
  | cons op ops ih =>
    exact ih (s.step op) (fun o ho => hops o (List.mem_cons_of_mem _ ho))
      (step_wellKeyed s op (hops op (List.mem_cons_self _ _)) h)

theorem wellKeyed_parse (m : List (Bytes × Nat)) (h : wellKeyed m) (e : Bytes × Nat)
    (he : e ∈ m) : FileDesc.String (fsParseName e.1).1 = e.1 := by
  obtain ⟨fd, hd, hr, hk⟩ := h.2 e he
  rw [hk, fsParseName_String fd (FileDescOk_validType fd hd).1 hr.2]

theorem List_nodup (ms : S3Storage) (ft : Int) (fds : List FileDesc)
    (hk : wellKeyed ms.ramFiles)
    (hrem : ∀ c1 fdsAll, ms.objStore.List = (c1, .ok fdsAll) → fdsAll.Nodup)
    (hl : (ms.List ft).2 = .ok fds) : fds.Nodup := by
  unfold S3Storage.List at hl
  rcases hc : ms.objStore.List with ⟨c, e | fdsAll⟩
  · rw [hc] at hl
    simp at hl
  · rw [hc] at hl
    simp only [Res.ok.injEq] at hl
    rw [← hl]
    have hnd := hrem c fdsAll hc
    have hpairs : ms.ramFiles.Nodup := List.Nodup.of_map _ hk.1
    refine List.nodup_append.mpr ⟨hnd.filter _, ?_, ?_⟩
    · refine List.Nodup.map_on ?_ (hpairs.filter _)
      intro x hx y hy hxy
      have hx1 := (List.mem_filter.mp hx).1
      have hy1 := (List.mem_filter.mp hy).1
      have hkeys : x.1 = y.1 := by
        rw [← wellKeyed_parse _ hk x hx1, ← wellKeyed_parse _ hk y hy1, hxy]
      exact List.inj_on_of_nodup_map hk.1 hx1 hy1 hkeys
    · intro a ha hb
      obtain ⟨e, he, rfl⟩ := List.mem_map.mp hb
      obtain ⟨he1, he2⟩ := List.mem_filter.mp he
      simp only [decide_eq_true_eq] at he2
      apply he2
      rw [← wellKeyed_parse _ hk e he1]
      exact List.mem_map.mpr ⟨_, ha, rfl⟩

/-- C20. `List` returns no descriptor twice: in every state that a sequence of
calls (with descriptors in the range of their Go type) reaches from a new
storage, for every mask `ft`, if the listing of the store has no descriptor
twice, then the result of a `List(ft)` that succeeds has no descriptor twice. -/
theorem list_no_duplicates (c : S3Client) (ops : List Op) (ft : Int) (fds : List FileDesc)
    (hops : ∀ op ∈ ops, op.inRange)
    (hrem : ∀ c1 fdsAll, ((Sys.new c).run ops).ms.objStore.List = (c1, .ok fdsAll) →
      fdsAll.Nodup)
    (hl : (((Sys.new c).run ops).ms.List ft).2 = .ok fds) : fds.Nodup := by
  have h0 : wellKeyed (Sys.new c).ms.ramFiles := by
    refine ⟨List.nodup_nil, fun e he => ?_⟩
    simp [Sys.new, NewS3Storage] at he
  exact List_nodup _ ft fds (run_wellKeyed _ ops hops h0) hrem hl

/-- C20 after `Create({Manifest,1})`, `Write`, `Close` of the writer and
`Create({Journal,2})` on a new storage over an empty store, with the mask of
both types: the manifest is in the listing of the store and in the map, the
journal in the map only, and `List` gives each of them once. -/
theorem list_no_duplicates_witness :
    (∀ op ∈ [Op.Create ⟨TypeManifest, 1⟩, Op.WriterWrite 0 (ascii "hello"), Op.WriterClose 0,
        Op.Create ⟨TypeJournal, 2⟩], op.inRange) ∧
    (((Sys.new ⟨[], []⟩).run [.Create ⟨TypeManifest, 1⟩, .WriterWrite 0 (ascii "hello"),
        .WriterClose 0, .Create ⟨TypeJournal, 2⟩]).ms.objStore.List).2
      = .ok [⟨TypeManifest, 1⟩] ∧
    (((Sys.new ⟨[], []⟩).run [.Create ⟨TypeManifest, 1⟩, .WriterWrite 0 (ascii "hello"),
        .WriterClose 0, .Create ⟨TypeJournal, 2⟩]).ms.List 3).2
      = .ok [⟨TypeManifest, 1⟩, ⟨TypeJournal, 2⟩] ∧
    ([⟨TypeManifest, 1⟩, ⟨TypeJournal, 2⟩] : List FileDesc).Nodup := by
  have hops : ∀ op ∈ [Op.Create ⟨TypeManifest, 1⟩, Op.WriterWrite 0 (ascii "hello"),
      Op.WriterClose 0, Op.Create ⟨TypeJournal, 2⟩], op.inRange := by
    intro op hop
    simp only [List.mem_cons, List.mem_singleton, List.not_mem_nil, or_false] at hop
    rcases hop with rfl | rfl | rfl | rfl
    · exact (by decide : (⟨TypeManifest, 1⟩ : FileDesc).inRange)
    · trivial
    · trivial
    · exact (by decide : (⟨TypeJournal, 2⟩ : FileDesc).inRange)
  refine ⟨hops, rfl, by decide, ?_⟩
  refine list_no_duplicates ⟨[], []⟩ [.Create ⟨TypeManifest, 1⟩,
    .WriterWrite 0 (ascii "hello"), .WriterClose 0, .Create ⟨TypeJournal, 2⟩] 3 _ hops ?_
    (by decide)
  intro c1 fdsAll hlist
  have h2 : (((Sys.new ⟨[], []⟩).run [.Create ⟨TypeManifest, 1⟩, .WriterWrite 0 (ascii "hello"),
        .WriterClose 0, .Create ⟨TypeJournal, 2⟩]).ms.objStore.List).2
      = .ok [⟨TypeManifest, 1⟩] := rfl
  rw [hlist] at h2
  simp only [Except.ok.injEq] at h2
  rw [h2]
  decide

end levels3
